import Mathlib

set_option maxRecDepth 16000

/-!
Verification of the untyped-value normalization engine of the `gosok`
repository (`src/common/parse.go`, constants in `src/common/constants.go`).

The Go code is shallowly embedded:
* `float32`/`float64` are modelled by `GoFloat`: NaN, signed infinities, and
  finite values carried as exact rationals.  Arithmetic on finite values is
  exact (no binary rounding); this idealization is noted at each use site.
* `time.Time` is modelled by `GoTime`: the absolute instant measured in
  nanoseconds since January 1, year 1, 00:00:00 UTC (the zero `time.Time`),
  so `t.IsZero()` becomes `t = 0`.  `time.Unix(sec, nsec)` adds the epoch
  offset `unixToInternal = 62135596800` seconds.
* Go standard library functions (`strconv.ParseInt`, `strconv.ParseFloat`,
  `strconv.FormatInt`, `strconv.FormatFloat`, `strings.TrimSpace`,
  `strings.ToLower`, `time.Parse`) are modelled explicitly below, restricted
  to the fragments exercised by this code base (ASCII case folding and
  whitespace, decimal float syntax without underscores or hex mantissas).
-/

namespace Gosok

/-! ### Characters and digit strings -/

def isDigit (c : Char) : Bool := 48 ≤ c.toNat && c.toNat ≤ 57

def digitVal (c : Char) : Nat := c.toNat - 48

/-- Go `unicode.IsSpace`, restricted to the ASCII/Latin-1 space characters. -/
def isSpace (c : Char) : Bool :=
  c.toNat = 9 || c.toNat = 10 || c.toNat = 11 || c.toNat = 12 ||
  c.toNat = 13 || c.toNat = 32 || c.toNat = 133 || c.toNat = 160

/-- ASCII case folding (model of `strings.ToLower` on the inputs used here). -/
def toLowerChar (c : Char) : Char :=
  if 65 ≤ c.toNat && c.toNat ≤ 90 then Char.ofNat (c.toNat + 32) else c

def toLowerStr (s : String) : String := ⟨s.data.map toLowerChar⟩

/-- Model of `strings.TrimSpace`. -/
def trimSpace (s : String) : String :=
  ⟨((s.data.dropWhile isSpace).reverse.dropWhile isSpace).reverse⟩

def digitChar (d : Nat) : Char :=
  match d with
  | 0 => '0' | 1 => '1' | 2 => '2' | 3 => '3' | 4 => '4'
  | 5 => '5' | 6 => '6' | 7 => '7' | 8 => '8' | _ => '9'

/-- Value of a big-endian digit string. -/
def digitsToNat (cs : List Char) : Nat :=
  cs.foldl (fun a c => a * 10 + digitVal c) 0

/-- A non-empty all-digit string, as required by `strconv` integer parsing. -/
def parseDigits (cs : List Char) : Option Nat :=
  if cs ≠ [] ∧ cs.all (fun c => isDigit c) then some (digitsToNat cs) else none

/-- Little-endian digit characters of `n`; the fuel argument (any bound on the
iteration count, `n` itself suffices) keeps the recursion structural. -/
def formatNatAux : Nat → Nat → List Char
  | 0, _ => []
  | fuel + 1, n => if n = 0 then [] else digitChar (n % 10) :: formatNatAux fuel (n / 10)

/-- Decimal rendering of a natural number (big-endian, no leading zeros). -/
def formatNat (n : Nat) : List Char :=
  if n = 0 then ['0'] else (formatNatAux n n).reverse

theorem formatNatAux_eq_digits {fuel n : Nat} (h : n ≤ fuel) :
    formatNatAux fuel n = (Nat.digits 10 n).map digitChar := by
  induction fuel generalizing n with
  | zero =>
    have : n = 0 := by omega
    subst this; simp [formatNatAux]
  | succ fuel ih =>
    by_cases h0 : n = 0
    · subst h0; simp [formatNatAux]
    · rw [formatNatAux, if_neg h0]
      rw [Nat.digits_def' (by norm_num : 1 < 10) (by omega : 0 < n)]
      rw [List.map_cons]
      congr 1
      exact ih (by
        have := Nat.div_lt_self (by omega : 0 < n) (by norm_num : 1 < 10)
        omega)

theorem formatNat_eq (n : Nat) :
    formatNat n = if n = 0 then ['0'] else ((Nat.digits 10 n).map digitChar).reverse := by
  unfold formatNat
  by_cases h : n = 0
  · simp [h]
  · rw [if_neg h, if_neg h, formatNatAux_eq_digits (le_refl n)]

/-! ### 64-bit signed integers -/

def int64Min : Int := -9223372036854775808
def int64Max : Int := 9223372036854775807

/-- Go conversion `int64(u)` applied to a `uint64` value: wrap modulo `2^64`. -/
def wrapInt64 (n : Int) : Int := (n + 9223372036854775808) % 18446744073709551616 - 9223372036854775808

def splitSign : List Char → Bool × List Char
  | [] => (false, [])
  | c :: rest =>
    if c = '-' then (true, rest)
    else if c = '+' then (false, rest)
    else (false, c :: rest)

/-- Model of `strconv.ParseInt(s, 10, 64)` (and of `strconv.Atoi` on a 64-bit
platform): optional sign, non-empty decimal digits, 64-bit range check.
Failure (including range failure, which in Go sets a non-nil error) is `none`. -/
def goParseInt64Core (neg : Bool) (ds : List Char) : Option Int :=
  match parseDigits ds with
  | some m =>
    let v : Int := if neg then -(m : Int) else (m : Int)
    if int64Min ≤ v ∧ v ≤ int64Max then some v else none
  | none => none

def goParseInt64 (s : String) : Option Int :=
  goParseInt64Core (splitSign s.data).1 (splitSign s.data).2

/-- Model of `strconv.FormatInt(n, 10)` / `strconv.FormatUint` / `strconv.Itoa`. -/
def goFormatInt (n : Int) : String :=
  ⟨if n < 0 then '-' :: formatNat (-n).toNat else formatNat n.toNat⟩

/-! ### Digit-string round-trip lemmas -/

theorem digitVal_digitChar {d : Nat} (h : d < 10) : digitVal (digitChar d) = d := by
  interval_cases d <;> decide

theorem isDigit_digitChar {d : Nat} (h : d < 10) : isDigit (digitChar d) = true := by
  interval_cases d <;> decide

theorem foldl_map_digitChar (L : List Nat) (hL : ∀ d ∈ L, d < 10) :
    (((L.map digitChar).reverse).foldl (fun a c => a * 10 + digitVal c) 0) = Nat.ofDigits 10 L := by
  induction L with
  | nil => simp [Nat.ofDigits]
  | cons d L ih =>
    have hd : d < 10 := hL d (List.mem_cons_self _ _)
    have hL' : ∀ x ∈ L, x < 10 := fun x hx => hL x (List.mem_cons_of_mem _ hx)
    simp only [List.map_cons, List.reverse_cons, List.foldl_append, List.foldl_cons,
      List.foldl_nil]
    rw [ih hL', digitVal_digitChar hd, Nat.ofDigits_cons]
    ring

theorem digitsToNat_formatNat (n : Nat) : digitsToNat (formatNat n) = n := by
  by_cases h : n = 0
  · subst h; decide
  · unfold digitsToNat
    rw [formatNat_eq, if_neg h]
    rw [foldl_map_digitChar _ (fun d hd => Nat.digits_lt_base (by norm_num) hd)]
    exact Nat.ofDigits_digits 10 n

theorem formatNat_ne_nil (n : Nat) : formatNat n ≠ [] := by
  rw [formatNat_eq]
  by_cases h : n = 0
  · simp [h]
  · rw [if_neg h]
    intro hc
    have hne : Nat.digits 10 n ≠ [] := Nat.digits_ne_nil_iff_ne_zero.mpr h
    simp at hc
    exact hne hc

theorem formatNat_all_digits (n : Nat) : ∀ c ∈ formatNat n, isDigit c = true := by
  intro c hc
  rw [formatNat_eq] at hc
  by_cases h : n = 0
  · rw [if_pos h] at hc; simp at hc; subst hc; decide
  · rw [if_neg h] at hc
    rw [List.mem_reverse, List.mem_map] at hc
    obtain ⟨d, hd, rfl⟩ := hc
    exact isDigit_digitChar (Nat.digits_lt_base (by norm_num) hd)

theorem formatNat_length_le {n : Nat} {k : Nat} (hk : 1 ≤ k) (h : n < 10 ^ k) :
    (formatNat n).length ≤ k := by
  rw [formatNat_eq]
  by_cases h0 : n = 0
  · simpa [h0] using hk
  · rw [if_neg h0]
    simp only [List.length_reverse, List.length_map]
    have hpow : 10 ^ (Nat.digits 10 n).length ≤ 10 * n :=
      Nat.base_pow_length_digits_le 10 n (by norm_num) h0
    have hlt : 10 ^ (Nat.digits 10 n).length < 10 ^ (k + 1) := by
      calc 10 ^ (Nat.digits 10 n).length ≤ 10 * n := hpow
        _ < 10 * 10 ^ k := by omega
        _ = 10 ^ (k + 1) := by ring
    have := (Nat.pow_lt_pow_iff_right (by norm_num : 1 < 10)).mp hlt
    omega

theorem parseDigits_formatNat (n : Nat) :
    parseDigits (formatNat n) = some n := by
  unfold parseDigits
  rw [if_pos ⟨formatNat_ne_nil n, List.all_eq_true.mpr (formatNat_all_digits n)⟩]
  rw [digitsToNat_formatNat]

theorem splitSign_digits {cs : List Char} (h : ∀ c ∈ cs, isDigit c = true) :
    splitSign cs = (false, cs) := by
  cases cs with
  | nil => rfl
  | cons c rest =>
    have hcdig : isDigit c = true := h c (List.mem_cons_self _ _)
    have hcne1 : c ≠ '-' := by intro hc; rw [hc] at hcdig; exact absurd hcdig (by decide)
    have hcne2 : c ≠ '+' := by intro hc; rw [hc] at hcdig; exact absurd hcdig (by decide)
    simp [splitSign, hcne1, hcne2]

theorem goParseInt64Core_neg {m : Nat} {ds : List Char} (hds : parseDigits ds = some m)
    (hr : int64Min ≤ -(m : Int)) :
    goParseInt64Core true ds = some (-(m : Int)) := by
  unfold goParseInt64Core
  rw [hds]
  have hrange : int64Min ≤ -(m : Int) ∧ -(m : Int) ≤ int64Max := ⟨hr, by unfold int64Max; omega⟩
  simp [hrange]

theorem goParseInt64Core_pos {m : Nat} {ds : List Char} (hds : parseDigits ds = some m)
    (hr : (m : Int) ≤ int64Max) :
    goParseInt64Core false ds = some (m : Int) := by
  unfold goParseInt64Core
  rw [hds]
  have hrange : int64Min ≤ (m : Int) ∧ (m : Int) ≤ int64Max := ⟨by unfold int64Min; omega, hr⟩
  simp [hrange]

theorem goParseInt64_goFormatInt {n : Int} (h1 : int64Min ≤ n) (h2 : n ≤ int64Max) :
    goParseInt64 (goFormatInt n) = some n := by
  unfold goParseInt64 goFormatInt
  by_cases hn : n < 0
  · rw [if_pos hn]
    have hsplit : splitSign ('-' :: formatNat (-n).toNat) = (true, formatNat (-n).toNat) := by
      simp [splitSign]
    simp only [hsplit]
    have hv : ((-n).toNat : Int) = -n := Int.toNat_of_nonneg (by omega)
    rw [goParseInt64Core_neg (parseDigits_formatNat _) (by rw [hv]; omega)]
    rw [hv]; congr 1; omega
  · rw [if_neg hn]
    have hsplit := splitSign_digits (formatNat_all_digits n.toNat)
    simp only [hsplit]
    have hv : (n.toNat : Int) = n := Int.toNat_of_nonneg (by omega)
    rw [goParseInt64Core_pos (parseDigits_formatNat _) (by rw [hv]; omega)]
    rw [hv]

/-! ### Floats

`GoFloat` models `float64`/`float32` values: NaN, the two infinities, and
finite values carried as exact rationals.  Arithmetic on finite values is
exact; every IEEE double is a dyadic rational, so all values reachable from
the Go code are representable, and the pinned constants of the specification
behave identically under exact arithmetic and under IEEE evaluation (checked
for each pinned example).  Signed zero is not distinguished; no claim
observes it. -/

/-! Kernel-computable rational arithmetic.  The library operations `Rat.add`,
`Rat.sub`, `Rat.mul` and `Rat.inv` are `@[irreducible]`, so the embedding uses
the following equivalents, each proved equal to the library operation. -/

def ratAdd (a b : ℚ) : ℚ := mkRat (a.num * b.den + b.num * a.den) (a.den * b.den)

def ratSub (a b : ℚ) : ℚ := mkRat (a.num * b.den - b.num * a.den) (a.den * b.den)

def ratMul (a b : ℚ) : ℚ := mkRat (a.num * b.num) (a.den * b.den)

def ratDiv (a b : ℚ) : ℚ :=
  if 0 ≤ b.num then mkRat (a.num * b.den) (a.den * b.num.natAbs)
  else mkRat (-(a.num * b.den)) (a.den * b.num.natAbs)

theorem ratAdd_eq (a b : ℚ) : ratAdd a b = a + b := by
  unfold ratAdd
  rw [← Rat.mkRat_add_mkRat _ _ a.den_nz b.den_nz, Rat.mkRat_self, Rat.mkRat_self]

theorem ratMul_eq (a b : ℚ) : ratMul a b = a * b := by
  unfold ratMul
  rw [← Rat.mkRat_mul_mkRat, Rat.mkRat_self, Rat.mkRat_self]

theorem ratSub_eq (a b : ℚ) : ratSub a b = a - b := by
  unfold ratSub
  have : a - b = a + (-b) := by ring
  rw [this, ← ratAdd_eq]
  unfold ratAdd
  rw [Rat.neg_num, Rat.neg_den]
  congr 1
  ring

theorem cast_den_ne_zero (b : ℚ) : ((b.den : ℚ)) ≠ 0 :=
  Nat.cast_ne_zero.mpr b.den_nz

theorem den_mul_self_eq_num (a : ℚ) : (a.den : ℚ) * a = (a.num : ℚ) := by
  rw [mul_comm, ← eq_div_iff (cast_den_ne_zero a)]
  exact (Rat.num_div_den a).symm

theorem ratDiv_eq (a b : ℚ) : ratDiv a b = a / b := by
  unfold ratDiv
  by_cases hb : b.num = 0
  · have hb0 : b = 0 := Rat.zero_iff_num_zero.mpr hb
    subst hb0
    simp
  · have hbq : (b.num : ℚ) ≠ 0 := Int.cast_ne_zero.mpr hb
    have hbne : b ≠ 0 := fun h => hb (by rw [h]; rfl)
    have ha := den_mul_self_eq_num a
    have hbb := den_mul_self_eq_num b
    by_cases hs : 0 ≤ b.num
    · rw [if_pos hs, Rat.mkRat_eq_div]
      have habs : ((b.num.natAbs : ℚ)) = (b.num : ℚ) := by
        rw [Int.cast_natAbs, Int.cast_abs, abs_of_nonneg (by exact_mod_cast hs : (0:ℚ) ≤ (b.num : ℚ))]
      push_cast
      rw [habs]
      rw [div_eq_div_iff (mul_ne_zero (cast_den_ne_zero a) hbq) hbne]
      rw [← ha, ← hbb]
      ring
    · rw [if_neg hs, Rat.mkRat_eq_div]
      have hneg : (b.num : ℚ) < 0 := by exact_mod_cast (by omega : b.num < 0)
      have habs : ((b.num.natAbs : ℚ)) = -(b.num : ℚ) := by
        rw [Int.cast_natAbs, Int.cast_abs, abs_of_neg hneg]
      push_cast
      rw [habs]
      have hden : ((a.den : ℚ)) * -(b.num : ℚ) ≠ 0 := by
        apply mul_ne_zero (cast_den_ne_zero a)
        simpa using hbq
      rw [div_eq_div_iff hden hbne]
      rw [← ha, ← hbb]
      ring

/-- `10^k` as a kernel-computable rational. -/
def pow10 (k : Nat) : ℚ := ((10 ^ k : Nat) : ℚ)

theorem pow10_eq (k : Nat) : pow10 k = (10 : ℚ) ^ k := by
  unfold pow10
  push_cast
  rfl

inductive GoFloat where
  | finite (q : ℚ)
  | inf (neg : Bool)
  | nan
deriving DecidableEq

/-- The Go comparison `f != 0` (true for NaN and for the infinities). -/
def GoFloat.isNonzero : GoFloat → Bool
  | .finite q => q ≠ 0
  | .inf _ => true
  | .nan => true

def GoFloat.mul : GoFloat → GoFloat → GoFloat
  | .nan, _ => .nan
  | _, .nan => .nan
  | .inf s, .inf t => .inf (xor s t)
  | .inf s, .finite q => if q = 0 then .nan else .inf (xor s (decide (q < 0)))
  | .finite q, .inf t => if q = 0 then .nan else .inf (xor (decide (q < 0)) t)
  | .finite a, .finite b => .finite (ratMul a b)

def GoFloat.div : GoFloat → GoFloat → GoFloat
  | .nan, _ => .nan
  | _, .nan => .nan
  | .inf _, .inf _ => .nan
  | .inf s, .finite q => if q < 0 then .inf (!s) else .inf s
  | .finite _, .inf _ => .finite 0
  | .finite a, .finite b =>
    if b = 0 then (if a = 0 then .nan else .inf (decide (a < 0))) else .finite (ratDiv a b)

def GoFloat.sub : GoFloat → GoFloat → GoFloat
  | .nan, _ => .nan
  | _, .nan => .nan
  | .inf s, .inf t => if s = t then .nan else .inf s
  | .inf s, .finite _ => .inf s
  | .finite _, .inf t => .inf (!t)
  | .finite a, .finite b => .finite (ratSub a b)

/-- Truncation of a rational toward zero. -/
def ratTrunc (q : ℚ) : Int := if 0 ≤ q then ⌊q⌋ else ⌈q⌉

/-- Go rounding half away from zero (the documented contract of `math.Round`). -/
def ratHalfAway (q : ℚ) : Int :=
  if 0 ≤ q then ⌊ratAdd q (mkRat 1 2)⌋ else -⌊ratAdd (-q) (mkRat 1 2)⌋

theorem ratHalfAway_eq (q : ℚ) :
    ratHalfAway q = if 0 ≤ q then ⌊q + 1/2⌋ else -⌊-q + 1/2⌋ := by
  unfold ratHalfAway
  rw [ratAdd_eq, ratAdd_eq]
  norm_num

/-- Go conversion `int64(f)` (also `int(f)` on a 64-bit platform).  For values
whose truncation is outside the `int64` range, and for NaN and the infinities,
the Go specification leaves the result implementation-dependent; this models
the amd64 behaviour (the saturating "integer indefinite" `int64Min`). -/
def goFloatToInt : GoFloat → Int
  | .finite q =>
    let t := ratTrunc q
    if int64Min ≤ t ∧ t ≤ int64Max then t else int64Min
  | .inf _ => int64Min
  | .nan => int64Min

def mathCeil : GoFloat → GoFloat
  | .finite q => .finite (⌈q⌉ : Int)
  | .inf s => .inf s
  | .nan => .nan

def mathFloor : GoFloat → GoFloat
  | .finite q => .finite (⌊q⌋ : Int)
  | .inf s => .inf s
  | .nan => .nan

def mathRound : GoFloat → GoFloat
  | .finite q => .finite (ratHalfAway q : Int)
  | .inf s => .inf s
  | .nan => .nan

/-- `math.Pow(10, float64(d))` as used after the non-negative clamp: `d ≥ 0`
always holds at the call sites, and `10^d` is modelled exactly. -/
def mathPow10 (d : Int) : GoFloat := .finite (pow10 d.toNat)

/-- Magnitude bound of `float64` (`2^1024` slightly exceeds `math.MaxFloat64`;
the model rejects anything at or above it, as `strconv.ParseFloat` reports a
range error there, which the Go code under verification treats as failure). -/
def ratFloatMax : ℚ := ((2 ^ 1024 : Nat) : ℚ)

/-! ### `strconv.ParseFloat(s, 64)` model

Decimal forms only: optional sign, digits with optional fraction and optional
decimal exponent, and the case-insensitive special forms `inf`, `infinity`,
`nan`.  Hexadecimal mantissas and digit-separating underscores are accepted by
Go but never produced or consumed by this code base and are modelled as
failures. -/

def spanDigits (cs : List Char) : List Char × List Char :=
  (cs.takeWhile isDigit, cs.dropWhile isDigit)

/-- The non-negative value `(ip + fp/10^fl) * 10^(±e)` of a parsed decimal
mantissa, assembled with integer arithmetic. -/
def mkMantissa (ip fp fl : Nat) (eNeg : Bool) (e : Nat) : ℚ :=
  if eNeg then mkRat (ip * 10 ^ fl + fp) (10 ^ (fl + e))
  else mkRat (((ip * 10 ^ fl + fp) * 10 ^ e : Nat)) (10 ^ fl)

theorem mkMantissa_false (ip fp fl e : Nat) :
    mkMantissa ip fp fl false e =
      ((ip : ℚ) + (fp : ℚ) / (10 : ℚ) ^ fl) * (10 : ℚ) ^ e := by
  have hfl : ((10 : ℚ) ^ fl) ≠ 0 := pow_ne_zero _ (by norm_num)
  rw [show mkMantissa ip fp fl false e =
    mkRat (((ip * 10 ^ fl + fp) * 10 ^ e : Nat)) (10 ^ fl) from rfl]
  rw [Rat.mkRat_eq_div]
  push_cast
  field_simp

theorem mkMantissa_true (ip fp fl e : Nat) :
    mkMantissa ip fp fl true e =
      ((ip : ℚ) + (fp : ℚ) / (10 : ℚ) ^ fl) / (10 : ℚ) ^ e := by
  have hfl : ((10 : ℚ) ^ fl) ≠ 0 := pow_ne_zero _ (by norm_num)
  have he : ((10 : ℚ) ^ e) ≠ 0 := pow_ne_zero _ (by norm_num)
  rw [show mkMantissa ip fp fl true e =
    mkRat (ip * 10 ^ fl + fp) (10 ^ (fl + e)) from rfl]
  rw [Rat.mkRat_eq_div]
  push_cast
  rw [pow_add]
  field_simp

/-- Optional decimal exponent part, then assembly of the mantissa value. -/
def parseExpPart (ip fp fl : Nat) : List Char → Option ℚ
  | [] => some (mkMantissa ip fp fl false 0)
  | c :: rest =>
    if c = 'e' ∨ c = 'E' then
      let p := splitSign rest
      let d := spanDigits p.2
      if d.1 = [] ∨ d.2 ≠ [] then none
      else some (mkMantissa ip fp fl p.1 (digitsToNat d.1))
    else none

def parseDecMantissa (cs : List Char) : Option ℚ :=
  let i := spanDigits cs
  match i.2 with
  | '.' :: r2 =>
    let f := spanDigits r2
    if i.1 = [] ∧ f.1 = [] then none
    else parseExpPart (digitsToNat i.1) (digitsToNat f.1) f.1.length f.2
  | _ => if i.1 = [] then none else parseExpPart (digitsToNat i.1) 0 0 i.2

def lowerList (cs : List Char) : List Char := cs.map toLowerChar

def goParseFloat (s : String) : Option GoFloat :=
  let p := splitSign s.data
  if lowerList p.2 = "inf".data ∨ lowerList p.2 = "infinity".data then some (.inf p.1)
  else if lowerList p.2 = "nan".data then some .nan
  else
    match parseDecMantissa p.2 with
    | some q => if q < ratFloatMax then some (.finite (if p.1 then -q else q)) else none
    | none => none

/-! ### `strconv.FormatFloat(f, 'f', -1, 64)` model

Go prints the shortest decimal string that parses back to the same float.  In
the exact-rational idealization the shortest faithful decimal of a dyadic
rational is its exact (minimal-length) decimal expansion, produced here.  The
`else` branch is unreachable for float64-representable values (their reduced
denominators are of the form `2^a`). -/

def divCountAux : Nat → Nat → Nat → Nat
  | 0, _, _ => 0
  | fuel + 1, p, n =>
    if 1 < p ∧ n ≠ 0 ∧ n % p = 0 then divCountAux fuel p (n / p) + 1 else 0

/-- Multiplicity of `p` in `n` (`0` when `p ≤ 1` or `n = 0`); the fuel `n`
bounds the iteration count. -/
def divCount (p n : Nat) : Nat := divCountAux n p n

/-- `fp` printed as exactly `k` digits, with leading zeros. -/
def padDigits (k : Nat) (m : Nat) : List Char :=
  List.replicate (k - (formatNat m).length) '0' ++ formatNat m

def formatFloatF : GoFloat → String
  | .nan => "NaN"
  | .inf b => if b then "-Inf" else "+Inf"
  | .finite q =>
    let k := max (divCount 2 q.den) (divCount 5 q.den)
    if q.den ∣ 10 ^ k then
      let scaledAbs : Nat := q.num.natAbs * (10 ^ k / q.den)
      let body := formatNat (scaledAbs / 10 ^ k) ++
        (if k = 0 then [] else '.' :: padDigits k (scaledAbs % 10 ^ k))
      ⟨if q.num < 0 then '-' :: body else body⟩
    else "0"

/-- A rational with a decimal-representable reduced denominator.  Every IEEE
double is of this form, so this predicate is the model image of "is a
`float64` value" for finite values. -/
def isDecimalRat (q : ℚ) : Prop := q.den ∣ 10 ^ max (divCount 2 q.den) (divCount 5 q.den)

instance (q : ℚ) : Decidable (isDecimalRat q) := by unfold isDecimalRat; infer_instance

/-! ### Time

`GoTime` is the instant in nanoseconds since January 1, year 1, 00:00:00 UTC,
i.e. `time.Time`'s internal `sec`/`nsec` pair flattened to one integer.  The
zero `time.Time` is `0`, so `t.IsZero()` is `t = 0`. -/

abbrev GoTime := Int

/-- Seconds between January 1, year 1 and January 1, 1970 (Go `unixToInternal`). -/
def unixToInternal : Int := 62135596800

/-- `time.Unix(sec, nsec)`: the instant `sec` seconds plus `nsec` nanoseconds
after the Unix epoch (Go normalizes `nsec` into `[0, 1e9)`, which does not
change the represented instant). -/
def timeUnix (sec nsec : Int) : GoTime := (sec + unixToInternal) * 1000000000 + nsec

/-- The instant `k` nanoseconds after the Unix epoch (specification view). -/
def epochNanos (k : Int) : GoTime := unixToInternal * 1000000000 + k

def zeroTime : GoTime := 0

/-! ### Proleptic Gregorian calendar -/

def isLeap (y : Int) : Bool := y % 4 = 0 && (y % 100 ≠ 0 || y % 400 = 0)

def daysIn (y m : Int) : Int :=
  if m = 2 then (if isLeap y then 29 else 28)
  else if m = 4 ∨ m = 6 ∨ m = 9 ∨ m = 11 then 30
  else 31

/-- Days from 1970-01-01 to the civil date `y-m-d` (proleptic Gregorian). -/
def daysFromCivil (y m d : Int) : Int :=
  let y2 := if m ≤ 2 then y - 1 else y
  let era := Int.fdiv y2 400
  let yoe := y2 - era * 400
  let mp := Int.emod (m + 9) 12
  let doy := Int.fdiv (153 * mp + 2) 5 + d - 1
  let doe := yoe * 365 + Int.fdiv yoe 4 - Int.fdiv yoe 100 + doy
  era * 146097 + doe - 719468

/-! ### `time.Parse` model

A layout string is lexed into standard chunks (model of Go `nextStdChunk`,
covering every chunk that occurs in this repository's layout constants and in
the `time` package constants used by `parse.go`; all other layout characters
are literals).  The value is then consumed chunk by chunk; the whole value
must be consumed.  Missing components default as in Go (year 0, January 1,
midnight, UTC).  Zone abbreviations match but carry offset 0, as Go fabricates
a zero-offset zone for unrecognized abbreviations. -/

inductive Tok where
  | lit (c : Char)
  | year4 | year2
  | mon2 | mon1 | monAbbr | monLong
  | day2 | day1 | dayUnd
  | hour24 | hour12z | hour12
  | min2 | min1
  | sec2 | sec1
  | fracZero (n : Nat) | fracNine
  | tzZColon | tzZNum | tzColon | tzNum | tzAbbr
  | wdAbbr | wdLong
  | pmUpper | pmLower
deriving DecidableEq

def tokenize : List Char → List Tok
  | [] => []
  | 'J' :: 'a' :: 'n' :: 'u' :: 'a' :: 'r' :: 'y' :: rest => .monLong :: tokenize rest
  | 'J' :: 'a' :: 'n' :: rest => .monAbbr :: tokenize rest
  | 'M' :: 'o' :: 'n' :: 'd' :: 'a' :: 'y' :: rest => .wdLong :: tokenize rest
  | 'M' :: 'o' :: 'n' :: rest => .wdAbbr :: tokenize rest
  | 'M' :: 'S' :: 'T' :: rest => .tzAbbr :: tokenize rest
  | '2' :: '0' :: '0' :: '6' :: rest => .year4 :: tokenize rest
  | '0' :: '1' :: rest => .mon2 :: tokenize rest
  | '0' :: '2' :: rest => .day2 :: tokenize rest
  | '0' :: '3' :: rest => .hour12z :: tokenize rest
  | '0' :: '4' :: rest => .min2 :: tokenize rest
  | '0' :: '5' :: rest => .sec2 :: tokenize rest
  | '0' :: '6' :: rest => .year2 :: tokenize rest
  | '1' :: '5' :: rest => .hour24 :: tokenize rest
  | '1' :: rest => .mon1 :: tokenize rest
  | '2' :: rest => .day1 :: tokenize rest
  | '_' :: '2' :: rest => .dayUnd :: tokenize rest
  | '3' :: rest => .hour12 :: tokenize rest
  | '4' :: rest => .min1 :: tokenize rest
  | '5' :: rest => .sec1 :: tokenize rest
  | 'P' :: 'M' :: rest => .pmUpper :: tokenize rest
  | 'p' :: 'm' :: rest => .pmLower :: tokenize rest
  | 'Z' :: '0' :: '7' :: ':' :: '0' :: '0' :: rest => .tzZColon :: tokenize rest
  | 'Z' :: '0' :: '7' :: '0' :: '0' :: rest => .tzZNum :: tokenize rest
  | '-' :: '0' :: '7' :: ':' :: '0' :: '0' :: rest => .tzColon :: tokenize rest
  | '-' :: '0' :: '7' :: '0' :: '0' :: rest => .tzNum :: tokenize rest
  | '.' :: '9' :: '9' :: '9' :: '9' :: '9' :: '9' :: '9' :: '9' :: '9' :: rest => .fracNine :: tokenize rest
  | '.' :: '0' :: '0' :: '0' :: '0' :: '0' :: '0' :: '0' :: '0' :: '0' :: rest => .fracZero 9 :: tokenize rest
  | '.' :: '0' :: '0' :: '0' :: '0' :: '0' :: '0' :: rest => .fracZero 6 :: tokenize rest
  | '.' :: '0' :: '0' :: '0' :: rest => .fracZero 3 :: tokenize rest
  | c :: rest => .lit c :: tokenize rest

structure ParseAcc where
  year : Int := 0
  month : Int := 1
  day : Int := 1
  hour : Int := 0
  minute : Int := 0
  second : Int := 0
  nsec : Int := 0
  zoneOffset : Int := 0
  pmSet : Bool := false
  amSet : Bool := false
deriving DecidableEq

/-- Exactly two digits (Go `getnum` with `fixed = true`). -/
def read2 : List Char → Option (Int × List Char)
  | a :: b :: rest =>
    if isDigit a && isDigit b then some (10 * (digitVal a : Int) + (digitVal b : Int), rest)
    else none
  | _ => none

/-- One or two digits (Go `getnum` with `fixed = false`). -/
def read12 : List Char → Option (Int × List Char)
  | [] => none
  | [a] => if isDigit a then some ((digitVal a : Int), []) else none
  | a :: b :: rest =>
    if isDigit a then
      if isDigit b then some (10 * (digitVal a : Int) + (digitVal b : Int), rest)
      else some ((digitVal a : Int), b :: rest)
    else none

/-- Exactly four digits (Go `stdLongYear`). -/
def read4 : List Char → Option (Int × List Char)
  | a :: b :: c :: d :: rest =>
    if isDigit a && isDigit b && isDigit c && isDigit d then
      some (1000 * (digitVal a : Int) + 100 * (digitVal b : Int) +
        10 * (digitVal c : Int) + (digitVal d : Int), rest)
    else none
  | _ => none

def monthNamesShort : List (List Char × Int) :=
  [("jan".data, 1), ("feb".data, 2), ("mar".data, 3), ("apr".data, 4),
   ("may".data, 5), ("jun".data, 6), ("jul".data, 7), ("aug".data, 8),
   ("sep".data, 9), ("oct".data, 10), ("nov".data, 11), ("dec".data, 12)]

def monthNamesLong : List (List Char × Int) :=
  [("january".data, 1), ("february".data, 2), ("march".data, 3), ("april".data, 4),
   ("may".data, 5), ("june".data, 6), ("july".data, 7), ("august".data, 8),
   ("september".data, 9), ("october".data, 10), ("november".data, 11), ("december".data, 12)]

def dayNamesShort : List (List Char × Int) :=
  [("sun".data, 0), ("mon".data, 1), ("tue".data, 2), ("wed".data, 3),
   ("thu".data, 4), ("fri".data, 5), ("sat".data, 6)]

def dayNamesLong : List (List Char × Int) :=
  [("sunday".data, 0), ("monday".data, 1), ("tuesday".data, 2), ("wednesday".data, 3),
   ("thursday".data, 4), ("friday".data, 5), ("saturday".data, 6)]

/-- Case-insensitive table lookup by prefix (Go `lookup` in `time/format.go`). -/
def lookupName (tab : List (List Char × Int)) (cs : List Char) : Option (Int × List Char) :=
  match tab with
  | [] => none
  | (nm, v) :: rest =>
    if nm.isPrefixOf (lowerList cs) then some (v, cs.drop nm.length)
    else lookupName rest cs

/-- Fraction digits scaled to nanoseconds: `ds` are the digits after the point. -/
def fracNsec (ds : List Char) : Int := (digitsToNat ds : Int) * 10 ^ (9 - ds.length)

/-- Optional fractional seconds after a seconds chunk (Go parses `.ddd` after
seconds even when the layout lacks it; more than 9 digits is an error). -/
def optFrac (a : ParseAcc) (cs : List Char) : Option (ParseAcc × List Char) :=
  match cs with
  | p :: d :: rest =>
    if (p = '.' ∨ p = ',') && isDigit d then
      let ds := (d :: rest).takeWhile isDigit
      if ds.length ≤ 9 then some ({a with nsec := fracNsec ds}, (d :: rest).dropWhile isDigit)
      else none
    else some (a, cs)
  | _ => some (a, cs)

def isUpperAlpha (c : Char) : Bool := 65 ≤ c.toNat && c.toNat ≤ 90

/-- Signed numeric zone offset, `colon` selects `±hh:mm` versus `±hhmm`. -/
def readZoneOffset (colon : Bool) (a : ParseAcc) (cs : List Char) :
    Option (ParseAcc × List Char) :=
  match cs with
  | s :: rest =>
    if s = '+' ∨ s = '-' then
      let sign : Int := if s = '-' then -1 else 1
      match read2 rest with
      | some (hh, r1) =>
        let body := if colon then
          (match r1 with
           | ':' :: r2 => read2 r2
           | _ => none)
          else read2 r1
        match body with
        | some (mm, r3) =>
          if hh ≤ 23 ∧ mm ≤ 59 then
            some ({a with zoneOffset := sign * (hh * 3600 + mm * 60)}, r3)
          else none
        | none => none
      | none => none
    else none
  | [] => none

/-- `nextIsFrac` tells the seconds chunks whether the next layout chunk is an
explicit fractional-second chunk; only when it is not does Go let a bare
seconds chunk swallow a fractional part present in the value. -/
def runTok (t : Tok) (nextIsFrac : Bool) (a : ParseAcc) (cs : List Char) :
    Option (ParseAcc × List Char) :=
  match t with
  | .lit c =>
    match cs with
    | x :: rest => if x = c then some (a, rest) else none
    | [] => none
  | .year4 =>
    match read4 cs with
    | some (v, rest) => some ({a with year := v}, rest)
    | none => none
  | .year2 =>
    match read2 cs with
    | some (v, rest) => some ({a with year := if 69 ≤ v then 1900 + v else 2000 + v}, rest)
    | none => none
  | .mon2 =>
    match read2 cs with
    | some (v, rest) => some ({a with month := v}, rest)
    | none => none
  | .mon1 =>
    match read12 cs with
    | some (v, rest) => some ({a with month := v}, rest)
    | none => none
  | .monAbbr =>
    match lookupName monthNamesShort cs with
    | some (v, rest) => some ({a with month := v}, rest)
    | none => none
  | .monLong =>
    match lookupName monthNamesLong cs with
    | some (v, rest) => some ({a with month := v}, rest)
    | none => none
  | .day2 =>
    match read2 cs with
    | some (v, rest) => some ({a with day := v}, rest)
    | none => none
  | .day1 =>
    match read12 cs with
    | some (v, rest) => some ({a with day := v}, rest)
    | none => none
  | .dayUnd =>
    let cs2 := match cs with
      | ' ' :: r => if r = [] then cs else r
      | _ => cs
    match read12 cs2 with
    | some (v, rest) => some ({a with day := v}, rest)
    | none => none
  | .hour24 =>
    match read12 cs with
    | some (v, rest) => if v ≤ 23 then some ({a with hour := v}, rest) else none
    | none => none
  | .hour12z =>
    match read2 cs with
    | some (v, rest) => if v ≤ 12 then some ({a with hour := v}, rest) else none
    | none => none
  | .hour12 =>
    match read12 cs with
    | some (v, rest) => if v ≤ 12 then some ({a with hour := v}, rest) else none
    | none => none
  | .min2 =>
    match read2 cs with
    | some (v, rest) => if v ≤ 59 then some ({a with minute := v}, rest) else none
    | none => none
  | .min1 =>
    match read12 cs with
    | some (v, rest) => if v ≤ 59 then some ({a with minute := v}, rest) else none
    | none => none
  | .sec2 =>
    match read2 cs with
    | some (v, rest) =>
      if v ≤ 59 then
        if nextIsFrac then some ({a with second := v}, rest)
        else optFrac {a with second := v} rest
      else none
    | none => none
  | .sec1 =>
    match read12 cs with
    | some (v, rest) =>
      if v ≤ 59 then
        if nextIsFrac then some ({a with second := v}, rest)
        else optFrac {a with second := v} rest
      else none
    | none => none
  | .fracZero n =>
    match cs with
    | p :: rest =>
      if p = '.' ∨ p = ',' then
        let ds := rest.takeWhile isDigit
        if ds.length ≥ n then
          some ({a with nsec := fracNsec (ds.take n)}, rest.drop n)
        else none
      else none
    | [] => none
  | .fracNine => optFrac a cs
  | .tzZColon =>
    match cs with
    | 'Z' :: rest => some ({a with zoneOffset := 0}, rest)
    | _ => readZoneOffset true a cs
  | .tzZNum =>
    match cs with
    | 'Z' :: rest => some ({a with zoneOffset := 0}, rest)
    | _ => readZoneOffset false a cs
  | .tzColon => readZoneOffset true a cs
  | .tzNum => readZoneOffset false a cs
  | .tzAbbr =>
    let nm := cs.takeWhile isUpperAlpha
    if nm = [] then none else some ({a with zoneOffset := 0}, cs.dropWhile isUpperAlpha)
  | .wdAbbr =>
    match lookupName dayNamesShort cs with
    | some (_, rest) => some (a, rest)
    | none => none
  | .wdLong =>
    match lookupName dayNamesLong cs with
    | some (_, rest) => some (a, rest)
    | none => none
  | .pmUpper =>
    match cs with
    | a1 :: a2 :: rest =>
      if a1 = 'P' ∧ a2 = 'M' then some ({a with pmSet := true}, rest)
      else if a1 = 'A' ∧ a2 = 'M' then some ({a with amSet := true}, rest)
      else none
    | _ => none
  | .pmLower =>
    match cs with
    | a1 :: a2 :: rest =>
      if a1 = 'p' ∧ a2 = 'm' then some ({a with pmSet := true}, rest)
      else if a1 = 'a' ∧ a2 = 'm' then some ({a with amSet := true}, rest)
      else none
    | _ => none

def headIsFrac : List Tok → Bool
  | .fracZero _ :: _ => true
  | .fracNine :: _ => true
  | _ => false

def runToks : List Tok → ParseAcc → List Char → Option ParseAcc
  | [], a, cs => if cs = [] then some a else none
  | t :: ts, a, cs =>
    match runTok t (headIsFrac ts) a cs with
    | some (a2, cs2) => runToks ts a2 cs2
    | none => none

def validAcc (a : ParseAcc) : Bool :=
  1 ≤ a.month && a.month ≤ 12 && 1 ≤ a.day && a.day ≤ daysIn a.year a.month

def accToTime (a : ParseAcc) : GoTime :=
  let hour :=
    if a.pmSet && a.hour < 12 then a.hour + 12
    else if a.amSet && a.hour = 12 then 0
    else a.hour
  let unixSec := daysFromCivil a.year a.month a.day * 86400 +
    hour * 3600 + a.minute * 60 + a.second - a.zoneOffset
  timeUnix unixSec a.nsec

/-- Model of `time.Parse(layout, value)`: `some t` when Go returns a nil
error, `none` when it returns an error. -/
def goTimeParse (layout value : String) : Option GoTime :=
  match runToks (tokenize layout.data) {} value.data with
  | some a => if validAcc a then some (accToTime a) else none
  | none => none

/-! ### Layout constants (`src/common/constants.go`) -/

def TimeFormatRFC3339 : String := "2006-01-02T15:04:05Z07:00"
def TimeFormatRFC3339Nano : String := "2006-01-02T15:04:05.999999999Z07:00"
def TimeFormatRFC822 : String := "02 Jan 06 15:04 MST"
def TimeFormatRFC822Z : String := "02 Jan 06 15:04 -0700"
def TimeFormatRFC1123 : String := "Mon, 02 Jan 2006 15:04:05 MST"
def TimeFormatRFC1123Z : String := "Mon, 02 Jan 2006 15:04:05 -0700"

def TimeFormatDateTime : String := "2006-01-02 15:04:05"
def TimeFormatDateTimeWithTZ : String := "2006-01-02 15:04:05 -0700"
def TimeFormatDateTimeMilli : String := "2006-01-02 15:04:05.000"
def TimeFormatDateTimeMicro : String := "2006-01-02 15:04:05.000000"
def TimeFormatDateTimeNano : String := "2006-01-02 15:04:05.000000000"
def TimeFormatDateTimeT : String := "2006-01-02T15:04:05"
def TimeFormatDateTimeTMilli : String := "2006-01-02T15:04:05.000"
def TimeFormatDateTimeTZ : String := "2006-01-02T15:04:05Z"
def TimeFormatDateTimeTMilliZ : String := "2006-01-02T15:04:05.000Z"
def TimeFormatDateTimeTOffset : String := "2006-01-02T15:04:05-07:00"
def TimeFormatDateTimeTMicroZ : String := "2006-01-02T15:04:05.000000Z"
def TimeFormatDateTimeTNanoZ : String := "2006-01-02T15:04:05.000000000Z"

def TimeFormatDate : String := "2006-01-02"
def TimeFormatDateSlash : String := "2006/01/02"
def TimeFormatDateDot : String := "2006.01.02"
def TimeFormatDateUS : String := "01/02/2006"
def TimeFormatDateUSWithDash : String := "01-02-2006"
def TimeFormatDateEU : String := "02/01/2006"
def TimeFormatDateEUWithDash : String := "02-01-2006"
def TimeFormatDateCompact : String := "20060102"
def TimeFormatDateReadable : String := "02 Jan 2006"
def TimeFormatDateLong : String := "January 2, 2006"

def TimeFormatTime : String := "15:04:05"
def TimeFormatTimeMilli : String := "15:04:05.000"
def TimeFormatTimeMicro : String := "15:04:05.000000"
def TimeFormatTimeShort : String := "15:04"
def TimeFormatTime12Hour : String := "03:04:05 PM"
def TimeFormatTime12 : String := "03:04 PM"

def TimeFormatUnix : String := "unix"
def TimeFormatUnixMilli : String := "unix-milli"
def TimeFormatUnixMicro : String := "unix-micro"
def TimeFormatUnixNano : String := "unix-nano"

/-! Layout constants of the Go `time` package referenced by `parse.go`. -/

def timeRFC3339 : String := "2006-01-02T15:04:05Z07:00"
def timeRFC3339Nano : String := "2006-01-02T15:04:05.999999999Z07:00"
def timeRFC1123 : String := "Mon, 02 Jan 2006 15:04:05 MST"
def timeRFC1123Z : String := "Mon, 02 Jan 2006 15:04:05 -0700"
def timeRFC822 : String := "02 Jan 06 15:04 MST"
def timeRFC822Z : String := "02 Jan 06 15:04 -0700"
def timeRFC850 : String := "Monday, 02-Jan-06 15:04:05 MST"
def timeANSIC : String := "Mon Jan _2 15:04:05 2006"
def timeUnixDate : String := "Mon Jan _2 15:04:05 MST 2006"
def timeRubyDate : String := "Mon Jan 02 15:04:05 -0700 2006"

/-- The `commonFormats` slice of `parseTimeFromString`, in declared order. -/
def defaultFormats : List String :=
  [TimeFormatRFC3339,
   TimeFormatRFC3339Nano,
   TimeFormatDateTime,
   TimeFormatDateTimeT,
   TimeFormatDateTimeTZ,
   TimeFormatDateTimeTMilliZ,
   TimeFormatDateTimeTMicroZ,
   TimeFormatDateTimeTNanoZ,
   TimeFormatDateTimeTOffset,
   TimeFormatDateTimeMilli,
   TimeFormatDateTimeMicro,
   TimeFormatDateTimeNano,
   TimeFormatDate,
   TimeFormatDateSlash,
   TimeFormatDateUS,
   TimeFormatDateEU,
   TimeFormatDateCompact,
   TimeFormatDateReadable,
   TimeFormatDateLong,
   TimeFormatRFC1123,
   TimeFormatRFC1123Z,
   TimeFormatRFC822,
   TimeFormatRFC822Z,
   timeRFC3339,
   timeRFC3339Nano,
   timeRFC1123,
   timeRFC1123Z,
   timeRFC822,
   timeRFC822Z,
   timeRFC850,
   timeANSIC,
   timeUnixDate,
   timeRubyDate]

/-! ### The dynamic value union

The `interface{}` inputs of the coercion functions, as a closed union of the
kinds the code dispatches on.  Width invariants (`int8` carries a value in
`[-128, 127]`, `uint64` a value in `[0, 2^64)`, ...) hold for every value a Go
caller can construct and appear as hypotheses where a theorem needs them.
`other` stands for the remaining kinds (structs, maps, slices, `Stringer`s):
`rendered` is the deterministic text produced for it by `ParseString`
(JSON / `String()` / `fmt.Sprintf`), `isZeroValue` is `reflect.ValueOf(v).IsZero()`. -/

inductive Value where
  | nil
  | bool (b : Bool)
  | int (n : Int)
  | int8 (n : Int)
  | int16 (n : Int)
  | int32 (n : Int)
  | int64 (n : Int)
  | uint (n : Int)
  | uint8 (n : Int)
  | uint16 (n : Int)
  | uint32 (n : Int)
  | uint64 (n : Int)
  | float32 (f : GoFloat)
  | float64 (f : GoFloat)
  | str (s : String)
  | time (t : GoTime)
  | timePtr (t : Option GoTime)
  | other (rendered : String) (isZeroValue : Bool)
deriving DecidableEq

/-- `time.Time`'s `fmt.Stringer` rendering, reached only by `ParseString` on a
`time.Time` input.  No claim observes this text; the model renders the raw
instant, standing in for Go's `"2006-01-02 15:04:05.999999999 -0700 MST"`
formatting of the same instant. -/
def timeStringerRender (t : GoTime) : String := goFormatInt t

/-! ### `ParseString` (`parse.go` lines 32-81) -/

def ParseString : Value → String
  | .nil => ""
  | .str s => s
  | .int n => goFormatInt n
  | .int8 n => goFormatInt n
  | .int16 n => goFormatInt n
  | .int32 n => goFormatInt n
  | .int64 n => goFormatInt n
  | .uint n => goFormatInt n
  | .uint8 n => goFormatInt n
  | .uint16 n => goFormatInt n
  | .uint32 n => goFormatInt n
  | .uint64 n => goFormatInt n
  | .float32 f => formatFloatF f
  | .float64 f => formatFloatF f
  | .bool b => if b then "true" else "false"
  | .time t => timeStringerRender t
  | .timePtr t =>
    match t with
    | some u => timeStringerRender u
    | none => "<nil>"
  | .other rendered _ => rendered

/-! ### `ParseInt` (`parse.go` lines 93-121)

The Go type switch lists `int`, `int8`, `int16`, `int32`, `int64`, `float32`,
`float64` and `string`; every other kind, including all unsigned integer
kinds, falls to the `default` branch and yields 0. -/

def ParseInt : Value → Int
  | .int n => n
  | .int8 n => n
  | .int16 n => n
  | .int32 n => n
  | .int64 n => n
  | .float32 f => goFloatToInt f
  | .float64 f => goFloatToInt f
  | .str s =>
    match goParseInt64 s with
    | some v => v
    | none => 0
  | _ => 0

/-! ### `ParseFloat64` (`parse.go` lines 124-172) -/

def ParseFloat64 : Value → GoFloat
  | .nil => .finite 0
  | .float64 f => f
  | .float32 f => f
  | .int n => .finite (n : ℚ)
  | .int8 n => .finite (n : ℚ)
  | .int16 n => .finite (n : ℚ)
  | .int32 n => .finite (n : ℚ)
  | .int64 n => .finite (n : ℚ)
  | .uint n => .finite (n : ℚ)
  | .uint8 n => .finite (n : ℚ)
  | .uint16 n => .finite (n : ℚ)
  | .uint32 n => .finite (n : ℚ)
  | .uint64 n => .finite (n : ℚ)
  | .str s =>
    match goParseFloat s with
    | some f => f
    | none => .finite 0
  | .bool b => .finite (if b then 1 else 0)
  | v =>
    match goParseFloat (ParseString v) with
    | some f => f
    | none => .finite 0

/-! ### Rounding (`parse.go` lines 174-234) -/

def ParseFloat64RoundUp (v : Value) (decimalPlaces : Int) : GoFloat :=
  let value := ParseFloat64 v
  let dp := if decimalPlaces < 0 then 0 else decimalPlaces
  let multiplier := mathPow10 dp
  (mathCeil (value.mul multiplier)).div multiplier

def ParseFloat64RoundDown (v : Value) (decimalPlaces : Int) : GoFloat :=
  let value := ParseFloat64 v
  let dp := if decimalPlaces < 0 then 0 else decimalPlaces
  let multiplier := mathPow10 dp
  (mathFloor (value.mul multiplier)).div multiplier

def ParseFloat64RoundAuto (v : Value) (decimalPlaces : Int) : GoFloat :=
  let value := ParseFloat64 v
  let dp := if decimalPlaces < 0 then 0 else decimalPlaces
  let multiplier := mathPow10 dp
  (mathRound (value.mul multiplier)).div multiplier

/-- `RoundingMode` is an integer enumeration in Go; values other than the four
named constants hit the `default` branch of `ParseFloat64Round`. -/
def RoundNone : Int := 0
def RoundUp : Int := 1
def RoundDown : Int := 2
def RoundAuto : Int := 3

def ParseFloat64Round (v : Value) (mode : Int) (decimalPlaces : Int) : GoFloat :=
  let value := ParseFloat64 v
  if mode = RoundNone then value
  else if mode = RoundUp then ParseFloat64RoundUp (.float64 value) decimalPlaces
  else if mode = RoundDown then ParseFloat64RoundDown (.float64 value) decimalPlaces
  else if mode = RoundAuto then ParseFloat64RoundAuto (.float64 value) decimalPlaces
  else value

/-! ### `ParseBool` (`parse.go` lines 238-285) -/

def ParseBool : Value → Bool
  | .nil => false
  | .bool b => b
  | .int n => n ≠ 0
  | .int8 n => n ≠ 0
  | .int16 n => n ≠ 0
  | .int32 n => n ≠ 0
  | .int64 n => n ≠ 0
  | .uint n => n ≠ 0
  | .uint8 n => n ≠ 0
  | .uint16 n => n ≠ 0
  | .uint32 n => n ≠ 0
  | .uint64 n => n ≠ 0
  | .float32 f => f.isNonzero
  | .float64 f => f.isNonzero
  | .str s =>
    let str := trimSpace (toLowerStr s)
    if str = "true" ∨ str = "t" ∨ str = "yes" ∨ str = "y" ∨ str = "on" ∨ str = "1" then true
    else if str = "false" ∨ str = "f" ∨ str = "no" ∨ str = "n" ∨ str = "off" ∨ str = "0" ∨ str = "" then false
    else
      match goParseFloat str with
      | some num => num.isNonzero
      | none => false
  | .time t => t ≠ 0
  | .timePtr t => t.isSome
  | .other _ isZeroValue => !isZeroValue

/-! ### `ParseTime` (`parse.go` lines 303-348) and its helpers (lines 367-491) -/

/-- `strings.HasPrefix`. -/
def strHasPrefix (p s : String) : Bool := p.data.isPrefixOf s.data

/-- The float branches of `ParseTime` and the float fallback of
`parseUnixTimestamp` (identical source lines):
`sec := int64(val); nsec := int64((val - float64(sec)) * 1e9); time.Unix(sec, nsec)`. -/
def floatToTime (f : GoFloat) : GoTime :=
  let sec := goFloatToInt f
  let nsec := goFloatToInt ((f.sub (.finite (sec : ℚ))).mul (.finite 1000000000))
  timeUnix sec nsec

/-- `uniqueDefaultParseTime` (lines 481-491): sub-classification of text
numerals above `1e12`. -/
def uniqueDefaultParseTime (num : Int) : GoTime :=
  if num > 1000000000000000 then
    if num > 1000000000000000000 then
      timeUnix 0 num
    else
      timeUnix (Int.tdiv num 1000000) (Int.tmod num 1000000 * 1000)
  else
    timeUnix (Int.tdiv num 1000) (Int.tmod num 1000 * 1000000)

/-- `parseUnixTimestamp` (lines 448-479).  Go's `/` and `%` on `int64` truncate
toward zero (`Int.tdiv` / `Int.tmod`). -/
def parseUnixTimestamp (str format : String) : GoTime :=
  match goParseInt64 str with
  | some num =>
    if format = TimeFormatUnix then timeUnix num 0
    else if format = TimeFormatUnixMilli then
      timeUnix (Int.tdiv num 1000) (Int.tmod num 1000 * 1000000)
    else if format = TimeFormatUnixMicro then
      timeUnix (Int.tdiv num 1000000) (Int.tmod num 1000000 * 1000)
    else if format = TimeFormatUnixNano then timeUnix 0 num
    else if num > 1000000000000 then uniqueDefaultParseTime num
    else timeUnix num 0
  | none =>
    match goParseFloat str with
    | some f => floatToTime f
    | none => zeroTime

/-- `parseCustomFormats` (lines 429-445). -/
def parseCustomFormats (str : String) : List String → GoTime
  | [] => zeroTime
  | format :: rest =>
    if strHasPrefix "unix" format then
      let t := parseUnixTimestamp str format
      if t ≠ 0 then t else parseCustomFormats str rest
    else
      match goTimeParse format str with
      | some t => t
      | none => parseCustomFormats str rest

/-- The loop over `commonFormats`: result of the first layout whose
`time.Parse` returns a nil error. -/
def tryFormatsList (formats : List String) (str : String) : Option GoTime :=
  match formats with
  | [] => none
  | f :: rest =>
    match goTimeParse f str with
    | some t => some t
    | none => tryFormatsList rest str

/-- `parseTimeFromString` (lines 367-427). -/
def parseTimeFromString (s : String) (formats : List String) : GoTime :=
  let str := trimSpace s
  if str = "" then zeroTime
  else if formats ≠ [] then parseCustomFormats str formats
  else
    match tryFormatsList defaultFormats str with
    | some t => t
    | none =>
      let t := parseUnixTimestamp str ""
      if t ≠ 0 then t else zeroTime

/-- `ParseTime` (lines 303-348).  The type switch covers `time.Time`,
`*time.Time`, `string`, `int`, `int32`, `int64`, `uint`, `uint32`, `uint64`,
`float32` and `float64`; the 8- and 16-bit integer kinds fall to the `default`
branch, which goes through `ParseString`.  The conversions `int64(val)` on
`uint` and `uint64` wrap modulo `2^64`. -/
def ParseTime (v : Value) (formats : List String) : GoTime :=
  match v with
  | .nil => zeroTime
  | .time t => t
  | .timePtr (some t) => t
  | .timePtr none => zeroTime
  | .str s => parseTimeFromString s formats
  | .int n => timeUnix n 0
  | .int32 n => timeUnix n 0
  | .int64 n => timeUnix n 0
  | .uint n => timeUnix (wrapInt64 n) 0
  | .uint32 n => timeUnix n 0
  | .uint64 n => timeUnix (wrapInt64 n) 0
  | .float32 f => floatToTime f
  | .float64 f => floatToTime f
  | v =>
    let str := ParseString v
    if str ≠ "" then parseTimeFromString str formats else zeroTime

/-! ### Small evaluation lemmas -/

theorem pow10_ne_zero (k : Nat) : ((10 : ℚ) ^ k) ≠ 0 := pow_ne_zero k (by norm_num)

theorem pow10_def_ne_zero (k : Nat) : pow10 k ≠ 0 := by
  rw [pow10_eq]; exact pow10_ne_zero k

theorem roundUp_finite (q : ℚ) (dp : Int) (hdp : 0 ≤ dp) :
    ParseFloat64RoundUp (.float64 (.finite q)) dp =
      .finite ((⌈q * (10 : ℚ) ^ dp.toNat⌉ : ℚ) / (10 : ℚ) ^ dp.toNat) := by
  unfold ParseFloat64RoundUp ParseFloat64 mathPow10
  rw [if_neg (by omega : ¬dp < 0)]
  simp only [GoFloat.mul, mathCeil, GoFloat.div]
  rw [if_neg (pow10_def_ne_zero dp.toNat)]
  rw [ratMul_eq, ratDiv_eq, pow10_eq]

theorem roundDown_finite (q : ℚ) (dp : Int) (hdp : 0 ≤ dp) :
    ParseFloat64RoundDown (.float64 (.finite q)) dp =
      .finite ((⌊q * (10 : ℚ) ^ dp.toNat⌋ : ℚ) / (10 : ℚ) ^ dp.toNat) := by
  unfold ParseFloat64RoundDown ParseFloat64 mathPow10
  rw [if_neg (by omega : ¬dp < 0)]
  simp only [GoFloat.mul, mathFloor, GoFloat.div]
  rw [if_neg (pow10_def_ne_zero dp.toNat)]
  rw [ratMul_eq, ratDiv_eq, pow10_eq]

theorem roundAuto_finite (q : ℚ) (dp : Int) (hdp : 0 ≤ dp) :
    ParseFloat64RoundAuto (.float64 (.finite q)) dp =
      .finite ((ratHalfAway (q * (10 : ℚ) ^ dp.toNat) : ℚ) / (10 : ℚ) ^ dp.toNat) := by
  unfold ParseFloat64RoundAuto ParseFloat64 mathPow10
  rw [if_neg (by omega : ¬dp < 0)]
  simp only [GoFloat.mul, mathRound, GoFloat.div]
  rw [if_neg (pow10_def_ne_zero dp.toNat)]
  rw [ratMul_eq, ratDiv_eq, pow10_eq]

/-! ### Character and shape lemmas -/

theorem isDigit_ne {a b : Char} (ha : isDigit a = true) (hb : isDigit b = false) : a ≠ b := by
  intro h; rw [h] at ha; rw [ha] at hb; cases hb

theorem isSpace_of_digit {c : Char} (hc : isDigit c = true) : isSpace c = false := by
  simp only [isDigit, Bool.and_eq_true, decide_eq_true_eq] at hc
  simp only [isSpace, Bool.or_eq_false_iff, decide_eq_false_iff_not]
  omega

theorem toLowerChar_of_small {c : Char} (hc : c.toNat < 65) : toLowerChar c = c := by
  unfold toLowerChar
  rw [if_neg]
  simp only [Bool.and_eq_true, decide_eq_true_eq, not_and]
  omega

theorem toLowerChar_of_digit {c : Char} (hc : isDigit c = true) : toLowerChar c = c := by
  simp only [isDigit, Bool.and_eq_true, decide_eq_true_eq] at hc
  exact toLowerChar_of_small (by omega)

theorem dropWhile_isSpace_eq_self {l : List Char} (h : ∀ c ∈ l, isSpace c = false) :
    l.dropWhile isSpace = l := by
  cases l with
  | nil => rfl
  | cons c rest =>
    rw [List.dropWhile_cons, if_neg (by rw [h c (List.mem_cons_self _ _)]; simp)]

theorem trimSpace_eq_self {s : String} (h : ∀ c ∈ s.data, isSpace c = false) :
    trimSpace s = s := by
  unfold trimSpace
  rw [dropWhile_isSpace_eq_self h]
  rw [dropWhile_isSpace_eq_self (fun c hc => h c (List.mem_reverse.mp hc))]
  rw [List.reverse_reverse]

theorem parseDigits_inv {ds : List Char} {m : Nat} (h : parseDigits ds = some m) :
    ds ≠ [] ∧ ∀ c ∈ ds, isDigit c = true := by
  unfold parseDigits at h
  by_cases hc : ds ≠ [] ∧ ds.all (fun c => isDigit c) = true
  · exact ⟨hc.1, List.all_eq_true.mp hc.2⟩
  · rw [if_neg hc] at h; cases h

theorem goParseInt64_chars {s : String} {n : Int} (h : goParseInt64 s = some n) :
    s.data ≠ [] ∧ ∀ c ∈ s.data, isSpace c = false := by
  unfold goParseInt64 goParseInt64Core at h
  cases hpd : parseDigits (splitSign s.data).2 with
  | none => rw [hpd] at h; cases h
  | some m =>
    obtain ⟨hne, hdig⟩ := parseDigits_inv hpd
    constructor
    · intro hnil
      rw [hnil] at hne
      exact hne rfl
    · intro x hx
      cases hsd : s.data with
      | nil => rw [hsd] at hx; cases hx
      | cons c rest =>
        rw [hsd] at hx hdig
        have hsplit2 : (splitSign (c :: rest)).2 = rest ∨
            (splitSign (c :: rest)).2 = c :: rest := by
          simp only [splitSign]
          split_ifs <;> simp
        rcases List.mem_cons.mp hx with rfl | hx2
        · by_cases hm : x = '-'
          · subst hm; decide
          · by_cases hp : x = '+'
            · subst hp; decide
            · have h2 : (splitSign (x :: rest)).2 = x :: rest := by
                simp only [splitSign]
                rw [if_neg hm, if_neg hp]
              rw [h2] at hdig
              exact isSpace_of_digit (hdig x (List.mem_cons_self _ _))
        · rcases hsplit2 with h2 | h2
          · rw [h2] at hdig
            exact isSpace_of_digit (hdig x hx2)
          · rw [h2] at hdig
            exact isSpace_of_digit (hdig x (List.mem_cons_of_mem _ hx2))

theorem string_ne_empty_of_data {s : String} (h : s.data ≠ []) : s ≠ "" := by
  intro hc; subst hc; exact h rfl

/-! ### Failure of the layout table on numeric text -/

theorem read2_none_short {cs : List Char} (h : cs.length < 2) : read2 cs = none := by
  match cs with
  | [] => rfl
  | [a] => rfl
  | a :: b :: rest => simp at h; omega

theorem read2_digits_long {cs : List Char} (h : ∀ c ∈ cs, isDigit c = true)
    (hlen : 2 ≤ cs.length) : ∃ v, read2 cs = some (v, cs.drop 2) := by
  match cs with
  | [] => simp at hlen
  | [a] => simp at hlen
  | a :: b :: rest =>
    refine ⟨10 * (digitVal a : Int) + (digitVal b : Int), ?_⟩
    have ha := h a (by simp)
    have hb := h b (by simp)
    simp [read2, ha, hb]

theorem read4_none_short {cs : List Char} (h : cs.length < 4) : read4 cs = none := by
  match cs with
  | [] => rfl
  | [a] => rfl
  | [a, b] => rfl
  | [a, b, c] => rfl
  | a :: b :: c :: d :: rest => simp at h; omega

theorem read4_digits_long {cs : List Char} (h : ∀ c ∈ cs, isDigit c = true)
    (hlen : 4 ≤ cs.length) : ∃ v, read4 cs = some (v, cs.drop 4) := by
  match cs with
  | [] => simp at hlen
  | [a] => simp at hlen
  | [a, b] => simp at hlen
  | [a, b, c] => simp at hlen
  | a :: b :: c :: d :: rest =>
    refine ⟨1000 * (digitVal a : Int) + 100 * (digitVal b : Int) +
      10 * (digitVal c : Int) + (digitVal d : Int), ?_⟩
    have ha := h a (by simp)
    have hb := h b (by simp)
    have hc := h c (by simp)
    have hd := h d (by simp)
    simp [read4, ha, hb, hc, hd]

theorem read4_none_nondigit3 {a b : Char} {c : Char} {rest : List Char}
    (hc : isDigit c = false) : read4 (a :: b :: c :: rest) = none := by
  match rest with
  | [] => rfl
  | d :: rest2 => simp [read4, hc]

/-- All table entries start with a lowercase letter, so lookup fails whenever
the value starts with a character whose lower-casing is below `'a'`
(digits, signs, punctuation) and on the empty value. -/
theorem lookupName_fail {tab : List (List Char × Int)}
    (htab : tab.all (fun p => match p.1 with
      | x :: _ => decide (97 ≤ x.toNat ∧ x.toNat ≤ 122)
      | [] => false) = true)
    {cs : List Char} (hcs : ∀ c, cs.head? = some c → (toLowerChar c).toNat < 97) :
    lookupName tab cs = none := by
  induction tab with
  | nil => rfl
  | cons p tl ih =>
    obtain ⟨nm, v⟩ := p
    rw [List.all_cons, Bool.and_eq_true] at htab
    unfold lookupName
    rw [if_neg, ih htab.2]
    match nm, htab.1 with
    | x :: xs, hx =>
      simp only [decide_eq_true_eq] at hx
      cases cs with
      | nil => simp [List.isPrefixOf, lowerList]
      | cons c rest =>
        have hlt := hcs c rfl
        simp only [lowerList, List.map_cons, List.isPrefixOf]
        intro hcon
        rw [Bool.and_eq_true] at hcon
        have := beq_iff_eq.mp hcon.1
        subst this
        omega

theorem monthNamesShort_heads : (monthNamesShort).all (fun p => match p.1 with
    | x :: _ => decide (97 ≤ x.toNat ∧ x.toNat ≤ 122)
    | [] => false) = true := by decide

theorem monthNamesLong_heads : (monthNamesLong).all (fun p => match p.1 with
    | x :: _ => decide (97 ≤ x.toNat ∧ x.toNat ≤ 122)
    | [] => false) = true := by decide

theorem dayNamesShort_heads : (dayNamesShort).all (fun p => match p.1 with
    | x :: _ => decide (97 ≤ x.toNat ∧ x.toNat ≤ 122)
    | [] => false) = true := by decide

theorem dayNamesLong_heads : (dayNamesLong).all (fun p => match p.1 with
    | x :: _ => decide (97 ≤ x.toNat ∧ x.toNat ≤ 122)
    | [] => false) = true := by decide

/-- Heads of digit strings and of `'-'`-prefixed strings lower-case below `'a'`. -/
theorem head_small_of_digits {cs : List Char} (h : ∀ c ∈ cs, isDigit c = true) :
    ∀ c, cs.head? = some c → (toLowerChar c).toNat < 97 := by
  intro c hc
  cases cs with
  | nil => cases hc
  | cons x rest =>
    simp only [List.head?, Option.some.injEq] at hc
    subst hc
    have hd := h x (List.mem_cons_self _ _)
    rw [toLowerChar_of_digit hd]
    simp only [isDigit, Bool.and_eq_true, decide_eq_true_eq] at hd
    omega

theorem head_small_of_minus {cs : List Char} :
    ∀ c, (('-' :: cs).head? = some c) → (toLowerChar c).toNat < 97 := by
  intro c hc
  simp only [List.head?] at hc
  injection hc with hc
  subst hc
  decide

/-! Failure of each leading-token shape on all-digit input. -/

theorem runToks_lit_nondigit {c : Char} {ts : List Tok} {acc : ParseAcc} {cs : List Char}
    (hc : isDigit c = false) (hcs : ∀ x ∈ cs, isDigit x = true) :
    runToks (.lit c :: ts) acc cs = none := by
  cases cs with
  | nil => rfl
  | cons x rest =>
    have hx := hcs x (by simp)
    simp only [runToks, runTok]
    rw [if_neg (isDigit_ne hx hc)]

theorem runToks_y4_lit {c : Char} {ts : List Tok} {acc : ParseAcc} {cs : List Char}
    (hc : isDigit c = false) (hcs : ∀ x ∈ cs, isDigit x = true) :
    runToks (.year4 :: .lit c :: ts) acc cs = none := by
  by_cases h4 : cs.length < 4
  · simp only [runToks, runTok, read4_none_short h4]
  · obtain ⟨v, hv⟩ := read4_digits_long hcs (by omega)
    simp only [runToks, runTok, hv]
    exact runToks_lit_nondigit hc (fun x hx => hcs x (List.mem_of_mem_drop hx))

theorem runToks_mon2_lit {c : Char} {ts : List Tok} {acc : ParseAcc} {cs : List Char}
    (hc : isDigit c = false) (hcs : ∀ x ∈ cs, isDigit x = true) :
    runToks (.mon2 :: .lit c :: ts) acc cs = none := by
  by_cases h2 : cs.length < 2
  · simp only [runToks, runTok, read2_none_short h2]
  · obtain ⟨v, hv⟩ := read2_digits_long hcs (by omega)
    simp only [runToks, runTok, hv]
    exact runToks_lit_nondigit hc (fun x hx => hcs x (List.mem_of_mem_drop hx))

theorem runToks_day2_lit {c : Char} {ts : List Tok} {acc : ParseAcc} {cs : List Char}
    (hc : isDigit c = false) (hcs : ∀ x ∈ cs, isDigit x = true) :
    runToks (.day2 :: .lit c :: ts) acc cs = none := by
  by_cases h2 : cs.length < 2
  · simp only [runToks, runTok, read2_none_short h2]
  · obtain ⟨v, hv⟩ := read2_digits_long hcs (by omega)
    simp only [runToks, runTok, hv]
    exact runToks_lit_nondigit hc (fun x hx => hcs x (List.mem_of_mem_drop hx))

theorem runToks_monLong {ts : List Tok} {acc : ParseAcc} {cs : List Char}
    (hcs : ∀ c, cs.head? = some c → (toLowerChar c).toNat < 97) :
    runToks (.monLong :: ts) acc cs = none := by
  simp only [runToks, runTok, lookupName_fail monthNamesLong_heads hcs]

theorem runToks_wdAbbr {ts : List Tok} {acc : ParseAcc} {cs : List Char}
    (hcs : ∀ c, cs.head? = some c → (toLowerChar c).toNat < 97) :
    runToks (.wdAbbr :: ts) acc cs = none := by
  simp only [runToks, runTok, lookupName_fail dayNamesShort_heads hcs]

theorem runToks_wdLong {ts : List Tok} {acc : ParseAcc} {cs : List Char}
    (hcs : ∀ c, cs.head? = some c → (toLowerChar c).toNat < 97) :
    runToks (.wdLong :: ts) acc cs = none := by
  simp only [runToks, runTok, lookupName_fail dayNamesLong_heads hcs]

theorem runToks_compact {acc : ParseAcc} {cs : List Char}
    (hcs : ∀ x ∈ cs, isDigit x = true) (hlen : cs.length ≠ 8) :
    runToks [.year4, .mon2, .day2] acc cs = none := by
  by_cases h4 : cs.length < 4
  · simp only [runToks, runTok, read4_none_short h4]
  · obtain ⟨v, hv⟩ := read4_digits_long hcs (by omega)
    simp only [runToks, runTok, hv]
    have hcs4 : ∀ x ∈ cs.drop 4, isDigit x = true := fun x hx => hcs x (List.mem_of_mem_drop hx)
    have hlen4 : (cs.drop 4).length = cs.length - 4 := List.length_drop 4 cs
    by_cases h2 : (cs.drop 4).length < 2
    · simp only [runToks, runTok, read2_none_short h2]
    · obtain ⟨v2, hv2⟩ := read2_digits_long hcs4 (by omega)
      simp only [runToks, runTok, hv2]
      have hcs6 : ∀ x ∈ (cs.drop 4).drop 2, isDigit x = true :=
        fun x hx => hcs4 x (List.mem_of_mem_drop hx)
      have hlen6 : ((cs.drop 4).drop 2).length = cs.length - 6 := by
        rw [List.length_drop, hlen4]
        omega
      by_cases h2b : ((cs.drop 4).drop 2).length < 2
      · simp only [runToks, runTok, read2_none_short h2b]
      · obtain ⟨v3, hv3⟩ := read2_digits_long hcs6 (by omega)
        simp only [runToks, runTok, hv3]
        rw [if_neg]
        intro hnil
        have := congrArg List.length hnil
        rw [List.length_drop, hlen6] at this
        simp at this
        omega

theorem goTimeParse_none_of_runToks {f s : String}
    (h : runToks (tokenize f.data) {} s.data = none) : goTimeParse f s = none := by
  unfold goTimeParse
  rw [h]

theorem tryFormatsList_cons_skip {f : String} {rest : List String} {s : String}
    (h : goTimeParse f s = none) :
    tryFormatsList (f :: rest) s = tryFormatsList rest s := by
  simp only [tryFormatsList, h]

/-- Every layout of the default table rejects a pure digit string whose length
is not 8 (only `TimeFormatDateCompact` accepts exactly 8 digits). -/
theorem tryFormatsList_digits {cs : List Char} (hcs : ∀ c ∈ cs, isDigit c = true)
    (hlen : cs.length ≠ 8) : tryFormatsList defaultFormats ⟨cs⟩ = none := by
  have hhead := head_small_of_digits hcs
  unfold defaultFormats
  rw [tryFormatsList_cons_skip (@goTimeParse_none_of_runToks TimeFormatRFC3339 ⟨cs⟩
    (runToks_y4_lit (c := '-') (by decide) hcs))]
  rw [tryFormatsList_cons_skip (@goTimeParse_none_of_runToks TimeFormatRFC3339Nano ⟨cs⟩
    (runToks_y4_lit (c := '-') (by decide) hcs))]
  rw [tryFormatsList_cons_skip (@goTimeParse_none_of_runToks TimeFormatDateTime ⟨cs⟩
    (runToks_y4_lit (c := '-') (by decide) hcs))]
  rw [tryFormatsList_cons_skip (@goTimeParse_none_of_runToks TimeFormatDateTimeT ⟨cs⟩
    (runToks_y4_lit (c := '-') (by decide) hcs))]
  rw [tryFormatsList_cons_skip (@goTimeParse_none_of_runToks TimeFormatDateTimeTZ ⟨cs⟩
    (runToks_y4_lit (c := '-') (by decide) hcs))]
  rw [tryFormatsList_cons_skip (@goTimeParse_none_of_runToks TimeFormatDateTimeTMilliZ ⟨cs⟩
    (runToks_y4_lit (c := '-') (by decide) hcs))]
  rw [tryFormatsList_cons_skip (@goTimeParse_none_of_runToks TimeFormatDateTimeTMicroZ ⟨cs⟩
    (runToks_y4_lit (c := '-') (by decide) hcs))]
  rw [tryFormatsList_cons_skip (@goTimeParse_none_of_runToks TimeFormatDateTimeTNanoZ ⟨cs⟩
    (runToks_y4_lit (c := '-') (by decide) hcs))]
  rw [tryFormatsList_cons_skip (@goTimeParse_none_of_runToks TimeFormatDateTimeTOffset ⟨cs⟩
    (runToks_y4_lit (c := '-') (by decide) hcs))]
  rw [tryFormatsList_cons_skip (@goTimeParse_none_of_runToks TimeFormatDateTimeMilli ⟨cs⟩
    (runToks_y4_lit (c := '-') (by decide) hcs))]
  rw [tryFormatsList_cons_skip (@goTimeParse_none_of_runToks TimeFormatDateTimeMicro ⟨cs⟩
    (runToks_y4_lit (c := '-') (by decide) hcs))]
  rw [tryFormatsList_cons_skip (@goTimeParse_none_of_runToks TimeFormatDateTimeNano ⟨cs⟩
    (runToks_y4_lit (c := '-') (by decide) hcs))]
  rw [tryFormatsList_cons_skip (@goTimeParse_none_of_runToks TimeFormatDate ⟨cs⟩
    (runToks_y4_lit (c := '-') (by decide) hcs))]
  rw [tryFormatsList_cons_skip (@goTimeParse_none_of_runToks TimeFormatDateSlash ⟨cs⟩
    (runToks_y4_lit (c := '/') (by decide) hcs))]
  rw [tryFormatsList_cons_skip (@goTimeParse_none_of_runToks TimeFormatDateUS ⟨cs⟩
    (runToks_mon2_lit (c := '/') (by decide) hcs))]
  rw [tryFormatsList_cons_skip (@goTimeParse_none_of_runToks TimeFormatDateEU ⟨cs⟩
    (runToks_day2_lit (c := '/') (by decide) hcs))]
  rw [tryFormatsList_cons_skip (@goTimeParse_none_of_runToks TimeFormatDateCompact ⟨cs⟩
    (runToks_compact hcs hlen))]
  rw [tryFormatsList_cons_skip (@goTimeParse_none_of_runToks TimeFormatDateReadable ⟨cs⟩
    (runToks_day2_lit (c := ' ') (by decide) hcs))]
  rw [tryFormatsList_cons_skip (@goTimeParse_none_of_runToks TimeFormatDateLong ⟨cs⟩
    (runToks_monLong hhead))]
  rw [tryFormatsList_cons_skip (@goTimeParse_none_of_runToks TimeFormatRFC1123 ⟨cs⟩
    (runToks_wdAbbr hhead))]
  rw [tryFormatsList_cons_skip (@goTimeParse_none_of_runToks TimeFormatRFC1123Z ⟨cs⟩
    (runToks_wdAbbr hhead))]
  rw [tryFormatsList_cons_skip (@goTimeParse_none_of_runToks TimeFormatRFC822 ⟨cs⟩
    (runToks_day2_lit (c := ' ') (by decide) hcs))]
  rw [tryFormatsList_cons_skip (@goTimeParse_none_of_runToks TimeFormatRFC822Z ⟨cs⟩
    (runToks_day2_lit (c := ' ') (by decide) hcs))]
  rw [tryFormatsList_cons_skip (@goTimeParse_none_of_runToks timeRFC3339 ⟨cs⟩
    (runToks_y4_lit (c := '-') (by decide) hcs))]
  rw [tryFormatsList_cons_skip (@goTimeParse_none_of_runToks timeRFC3339Nano ⟨cs⟩
    (runToks_y4_lit (c := '-') (by decide) hcs))]
  rw [tryFormatsList_cons_skip (@goTimeParse_none_of_runToks timeRFC1123 ⟨cs⟩
    (runToks_wdAbbr hhead))]
  rw [tryFormatsList_cons_skip (@goTimeParse_none_of_runToks timeRFC1123Z ⟨cs⟩
    (runToks_wdAbbr hhead))]
  rw [tryFormatsList_cons_skip (@goTimeParse_none_of_runToks timeRFC822 ⟨cs⟩
    (runToks_day2_lit (c := ' ') (by decide) hcs))]
  rw [tryFormatsList_cons_skip (@goTimeParse_none_of_runToks timeRFC822Z ⟨cs⟩
    (runToks_day2_lit (c := ' ') (by decide) hcs))]
  rw [tryFormatsList_cons_skip (@goTimeParse_none_of_runToks timeRFC850 ⟨cs⟩
    (runToks_wdLong hhead))]
  rw [tryFormatsList_cons_skip (@goTimeParse_none_of_runToks timeANSIC ⟨cs⟩
    (runToks_wdAbbr hhead))]
  rw [tryFormatsList_cons_skip (@goTimeParse_none_of_runToks timeUnixDate ⟨cs⟩
    (runToks_wdAbbr hhead))]
  rw [tryFormatsList_cons_skip (@goTimeParse_none_of_runToks timeRubyDate ⟨cs⟩
    (runToks_wdAbbr hhead))]
  rfl

/-- Every layout of the default table rejects a `'-'`-prefixed digit string. -/
theorem tryFormatsList_minus {cs : List Char} (hcs : ∀ c ∈ cs, isDigit c = true) :
    tryFormatsList defaultFormats ⟨'-' :: cs⟩ = none := by
  have hr4 : read4 ('-' :: cs) = none := by
    match cs with
    | [] => rfl
    | [a] => rfl
    | [a, b] => rfl
    | a :: b :: c :: rest => simp [read4, (by decide : isDigit '-' = false)]
  have h2dig : read2 ('-' :: cs) = none := by
    match cs with
    | [] => rfl
    | a :: rest => simp [read2, (by decide : isDigit '-' = false)]
  have hy4 : ∀ (ts : List Tok) (acc : ParseAcc), runToks (.year4 :: ts) acc ('-' :: cs) = none := by
    intro ts acc
    simp only [runToks, runTok, hr4]
  have hmon2 : ∀ (ts : List Tok) (acc : ParseAcc), runToks (.mon2 :: ts) acc ('-' :: cs) = none := by
    intro ts acc
    simp only [runToks, runTok, h2dig]
  have hday2 : ∀ (ts : List Tok) (acc : ParseAcc), runToks (.day2 :: ts) acc ('-' :: cs) = none := by
    intro ts acc
    simp only [runToks, runTok, h2dig]
  have hhead := @head_small_of_minus cs
  unfold defaultFormats
  rw [tryFormatsList_cons_skip (@goTimeParse_none_of_runToks TimeFormatRFC3339 ⟨'-' :: cs⟩
    (hy4 _ _))]
  rw [tryFormatsList_cons_skip (@goTimeParse_none_of_runToks TimeFormatRFC3339Nano ⟨'-' :: cs⟩
    (hy4 _ _))]
  rw [tryFormatsList_cons_skip (@goTimeParse_none_of_runToks TimeFormatDateTime ⟨'-' :: cs⟩
    (hy4 _ _))]
  rw [tryFormatsList_cons_skip (@goTimeParse_none_of_runToks TimeFormatDateTimeT ⟨'-' :: cs⟩
    (hy4 _ _))]
  rw [tryFormatsList_cons_skip (@goTimeParse_none_of_runToks TimeFormatDateTimeTZ ⟨'-' :: cs⟩
    (hy4 _ _))]
  rw [tryFormatsList_cons_skip (@goTimeParse_none_of_runToks TimeFormatDateTimeTMilliZ ⟨'-' :: cs⟩
    (hy4 _ _))]
  rw [tryFormatsList_cons_skip (@goTimeParse_none_of_runToks TimeFormatDateTimeTMicroZ ⟨'-' :: cs⟩
    (hy4 _ _))]
  rw [tryFormatsList_cons_skip (@goTimeParse_none_of_runToks TimeFormatDateTimeTNanoZ ⟨'-' :: cs⟩
    (hy4 _ _))]
  rw [tryFormatsList_cons_skip (@goTimeParse_none_of_runToks TimeFormatDateTimeTOffset ⟨'-' :: cs⟩
    (hy4 _ _))]
  rw [tryFormatsList_cons_skip (@goTimeParse_none_of_runToks TimeFormatDateTimeMilli ⟨'-' :: cs⟩
    (hy4 _ _))]
  rw [tryFormatsList_cons_skip (@goTimeParse_none_of_runToks TimeFormatDateTimeMicro ⟨'-' :: cs⟩
    (hy4 _ _))]
  rw [tryFormatsList_cons_skip (@goTimeParse_none_of_runToks TimeFormatDateTimeNano ⟨'-' :: cs⟩
    (hy4 _ _))]
  rw [tryFormatsList_cons_skip (@goTimeParse_none_of_runToks TimeFormatDate ⟨'-' :: cs⟩
    (hy4 _ _))]
  rw [tryFormatsList_cons_skip (@goTimeParse_none_of_runToks TimeFormatDateSlash ⟨'-' :: cs⟩
    (hy4 _ _))]
  rw [tryFormatsList_cons_skip (@goTimeParse_none_of_runToks TimeFormatDateUS ⟨'-' :: cs⟩
    (hmon2 _ _))]
  rw [tryFormatsList_cons_skip (@goTimeParse_none_of_runToks TimeFormatDateEU ⟨'-' :: cs⟩
    (hday2 _ _))]
  rw [tryFormatsList_cons_skip (@goTimeParse_none_of_runToks TimeFormatDateCompact ⟨'-' :: cs⟩
    (hy4 _ _))]
  rw [tryFormatsList_cons_skip (@goTimeParse_none_of_runToks TimeFormatDateReadable ⟨'-' :: cs⟩
    (hday2 _ _))]
  rw [tryFormatsList_cons_skip (@goTimeParse_none_of_runToks TimeFormatDateLong ⟨'-' :: cs⟩
    (runToks_monLong hhead))]
  rw [tryFormatsList_cons_skip (@goTimeParse_none_of_runToks TimeFormatRFC1123 ⟨'-' :: cs⟩
    (runToks_wdAbbr hhead))]
  rw [tryFormatsList_cons_skip (@goTimeParse_none_of_runToks TimeFormatRFC1123Z ⟨'-' :: cs⟩
    (runToks_wdAbbr hhead))]
  rw [tryFormatsList_cons_skip (@goTimeParse_none_of_runToks TimeFormatRFC822 ⟨'-' :: cs⟩
    (hday2 _ _))]
  rw [tryFormatsList_cons_skip (@goTimeParse_none_of_runToks TimeFormatRFC822Z ⟨'-' :: cs⟩
    (hday2 _ _))]
  rw [tryFormatsList_cons_skip (@goTimeParse_none_of_runToks timeRFC3339 ⟨'-' :: cs⟩
    (hy4 _ _))]
  rw [tryFormatsList_cons_skip (@goTimeParse_none_of_runToks timeRFC3339Nano ⟨'-' :: cs⟩
    (hy4 _ _))]
  rw [tryFormatsList_cons_skip (@goTimeParse_none_of_runToks timeRFC1123 ⟨'-' :: cs⟩
    (runToks_wdAbbr hhead))]
  rw [tryFormatsList_cons_skip (@goTimeParse_none_of_runToks timeRFC1123Z ⟨'-' :: cs⟩
    (runToks_wdAbbr hhead))]
  rw [tryFormatsList_cons_skip (@goTimeParse_none_of_runToks timeRFC822 ⟨'-' :: cs⟩
    (hday2 _ _))]
  rw [tryFormatsList_cons_skip (@goTimeParse_none_of_runToks timeRFC822Z ⟨'-' :: cs⟩
    (hday2 _ _))]
  rw [tryFormatsList_cons_skip (@goTimeParse_none_of_runToks timeRFC850 ⟨'-' :: cs⟩
    (runToks_wdLong hhead))]
  rw [tryFormatsList_cons_skip (@goTimeParse_none_of_runToks timeANSIC ⟨'-' :: cs⟩
    (runToks_wdAbbr hhead))]
  rw [tryFormatsList_cons_skip (@goTimeParse_none_of_runToks timeUnixDate ⟨'-' :: cs⟩
    (runToks_wdAbbr hhead))]
  rw [tryFormatsList_cons_skip (@goTimeParse_none_of_runToks timeRubyDate ⟨'-' :: cs⟩
    (runToks_wdAbbr hhead))]
  rfl

/-! ### Unix-timestamp classification lemmas -/

theorem ite_ne_zero_self (t : GoTime) : (if t ≠ 0 then t else zeroTime) = t := by
  by_cases h : t = 0
  · rw [if_neg (by simp [h]), h]; rfl
  · rw [if_pos h]

theorem parseUnix_default_classify {s : String} {n : Int} (hint : goParseInt64 s = some n) :
    parseUnixTimestamp s "" =
      (if n > 1000000000000000000 then epochNanos n
       else if n > 1000000000000000 then epochNanos (n * 1000)
       else if n > 1000000000000 then epochNanos (n * 1000000)
       else epochNanos (n * 1000000000)) := by
  simp only [parseUnixTimestamp, hint]
  rw [if_neg (by decide : ¬("" : String) = TimeFormatUnix)]
  rw [if_neg (by decide : ¬("" : String) = TimeFormatUnixMilli)]
  rw [if_neg (by decide : ¬("" : String) = TimeFormatUnixMicro)]
  rw [if_neg (by decide : ¬("" : String) = TimeFormatUnixNano)]
  by_cases h12 : n > 1000000000000
  · rw [if_pos h12]
    unfold uniqueDefaultParseTime
    by_cases h15 : n > 1000000000000000
    · rw [if_pos h15]
      by_cases h18 : n > 1000000000000000000
      · rw [if_pos h18, if_pos h18]
        unfold timeUnix epochNanos unixToInternal
        ring
      · rw [if_neg h18, if_neg h18, if_pos h15]
        unfold timeUnix epochNanos unixToInternal
        have h := Int.tdiv_add_tmod n 1000000
        linear_combination (1000 : Int) * h
    · rw [if_neg h15, if_neg (by omega : ¬n > 1000000000000000000), if_neg h15, if_pos h12]
      unfold timeUnix epochNanos unixToInternal
      have h := Int.tdiv_add_tmod n 1000
      linear_combination (1000000 : Int) * h
  · rw [if_neg h12, if_neg (by omega : ¬n > 1000000000000000000),
      if_neg (by omega : ¬n > 1000000000000000), if_neg h12]
    unfold timeUnix epochNanos unixToInternal
    ring

theorem parseTimeFromString_default_none {s : String} (htrim : trimSpace s = s)
    (hne : ¬s = "") (hfail : tryFormatsList defaultFormats s = none) :
    parseTimeFromString s [] =
      (if parseUnixTimestamp s "" ≠ 0 then parseUnixTimestamp s "" else zeroTime) := by
  simp only [parseTimeFromString, htrim, hfail]
  rw [if_neg hne, if_neg (by simp : ¬([] : List String) ≠ [])]

theorem goFormatInt_data_ne_nil (n : Int) : (goFormatInt n).data ≠ [] := by
  unfold goFormatInt
  split_ifs
  · simp
  · simpa using formatNat_ne_nil n.toNat

/-- Default-table parsing of small decimal numerals: all layouts fail, the text
re-parses as the same integer, and the magnitude heuristic lands on seconds. -/
theorem parseTime_small_text {n : Int} (h1 : -10000000 < n) (h2 : n < 10000000) :
    parseTimeFromString (goFormatInt n) [] = timeUnix n 0 := by
  have hrt : goParseInt64 (goFormatInt n) = some n :=
    goParseInt64_goFormatInt (by unfold int64Min; omega) (by unfold int64Max; omega)
  obtain ⟨hne, hnosp⟩ := goParseInt64_chars hrt
  have htrim := trimSpace_eq_self hnosp
  have hfail : tryFormatsList defaultFormats (goFormatInt n) = none := by
    unfold goFormatInt
    by_cases hn : n < 0
    · rw [if_pos hn]
      exact tryFormatsList_minus (formatNat_all_digits _)
    · rw [if_neg hn]
      apply tryFormatsList_digits (formatNat_all_digits _)
      have hlen : (formatNat n.toNat).length ≤ 7 :=
        formatNat_length_le (by omega) (by omega)
      omega
  have hput : parseUnixTimestamp (goFormatInt n) "" = timeUnix n 0 := by
    rw [parseUnix_default_classify hrt]
    rw [if_neg (by omega), if_neg (by omega), if_neg (by omega)]
    unfold timeUnix epochNanos unixToInternal
    ring
  rw [parseTimeFromString_default_none htrim (string_ne_empty_of_data hne) hfail,
    hput, ite_ne_zero_self]

/-! ### Claim theorems -/

/-- C1: when the default table fails and the text parses as a 64-bit signed
integer `n`, `ParseTime` classifies the unit by the exact power-of-ten
thresholds: above `10^18` nanoseconds, above `10^15` microseconds, above
`10^12` milliseconds, otherwise seconds; with the six pinned boundary inputs.
The result is stated as the instant that many nanoseconds after the epoch. -/
theorem claim_C1 :
    (∀ (s : String) (n : Int),
      tryFormatsList defaultFormats s = none →
      goParseInt64 s = some n →
      parseTimeFromString s [] =
        (if n > 1000000000000000000 then epochNanos n
         else if n > 1000000000000000 then epochNanos (n * 1000)
         else if n > 1000000000000 then epochNanos (n * 1000000)
         else epochNanos (n * 1000000000)))
  ∧ parseTimeFromString "1000000000000" [] = epochNanos (1000000000000 * 1000000000)
  ∧ parseTimeFromString "1000000000001" [] = epochNanos (1000000000001 * 1000000)
  ∧ parseTimeFromString "1000000000000000" [] = epochNanos (1000000000000000 * 1000000)
  ∧ parseTimeFromString "1000000000000001" [] = epochNanos (1000000000000001 * 1000)
  ∧ parseTimeFromString "1000000000000000000" [] = epochNanos (1000000000000000000 * 1000)
  ∧ parseTimeFromString "1000000000000000001" [] = epochNanos 1000000000000000001 := by
  refine ⟨?_, by decide, by decide, by decide, by decide, by decide, by decide⟩
  intro s n hfail hint
  obtain ⟨hne, hnosp⟩ := goParseInt64_chars hint
  have htrim := trimSpace_eq_self hnosp
  rw [parseTimeFromString_default_none htrim (string_ne_empty_of_data hne) hfail,
    ite_ne_zero_self, parseUnix_default_classify hint]

theorem claim_C1_witness :
    tryFormatsList defaultFormats "1000000000000001" = none ∧
    parseTimeFromString "1000000000000001" [] = epochNanos (1000000000000001 * 1000) := by
  have h1 : tryFormatsList defaultFormats "1000000000000001" = none := by decide
  refine ⟨h1, ?_⟩
  have h := claim_C1.1 "1000000000000001" 1000000000000001 h1 (by decide)
  rw [h]
  decide

/-- C4 counterexample: the claim covers every `uint64` value, but `ParseTime`
converts through `int64(val)`, which wraps values at or above `2^63`;
`uint64(2^63)` therefore maps to `-2^63` seconds, not `2^63` seconds. -/
theorem claim_C4_counterexample :
    ParseTime (.uint64 9223372036854775808) [] = timeUnix (-9223372036854775808) 0 ∧
    timeUnix (-9223372036854775808) 0 ≠ timeUnix 9223372036854775808 0 := by
  constructor
  · decide
  · decide

/-- C4 (amended): every native integer kind is interpreted as whole seconds
since the epoch with zero nanoseconds — as long as the value fits in `int64`.
The kinds in the type switch (`int`, `int32`, `int64`, `uint`, `uint32`,
`uint64`) go directly through `time.Unix`; `uint` and `uint64` values at or
above `2^63` first wrap modulo `2^64` through the `int64` conversion.  The 8-
and 16-bit kinds hit the `default` branch and travel through text, where the
magnitude heuristic always lands on seconds, so they too are interpreted
directly as seconds. -/
theorem claim_C4 :
    (∀ n : Int, ParseTime (.int n) [] = timeUnix n 0)
  ∧ (∀ n : Int, ParseTime (.int32 n) [] = timeUnix n 0)
  ∧ (∀ n : Int, ParseTime (.int64 n) [] = timeUnix n 0)
  ∧ (∀ n : Int, ParseTime (.uint32 n) [] = timeUnix n 0)
  ∧ (∀ n : Int, 0 ≤ n → n < 9223372036854775808 → ParseTime (.uint n) [] = timeUnix n 0)
  ∧ (∀ n : Int, 0 ≤ n → n < 9223372036854775808 → ParseTime (.uint64 n) [] = timeUnix n 0)
  ∧ (∀ n : Int, 9223372036854775808 ≤ n → n < 18446744073709551616 →
      ParseTime (.uint64 n) [] = timeUnix (n - 18446744073709551616) 0)
  ∧ (∀ n : Int, -128 ≤ n → n ≤ 127 → ParseTime (.int8 n) [] = timeUnix n 0)
  ∧ (∀ n : Int, -32768 ≤ n → n ≤ 32767 → ParseTime (.int16 n) [] = timeUnix n 0)
  ∧ (∀ n : Int, 0 ≤ n → n ≤ 255 → ParseTime (.uint8 n) [] = timeUnix n 0)
  ∧ (∀ n : Int, 0 ≤ n → n ≤ 65535 → ParseTime (.uint16 n) [] = timeUnix n 0) := by
  have hwrap : ∀ n : Int, -9223372036854775808 ≤ n → n < 9223372036854775808 →
      wrapInt64 n = n := by
    intro n ha hb
    unfold wrapInt64
    omega
  have hdefault : ∀ (v : Value) (n : Int), ParseString v = goFormatInt n →
      (ParseTime v [] = (if goFormatInt n ≠ "" then parseTimeFromString (goFormatInt n) [] else zeroTime)) →
      -10000000 < n → n < 10000000 → ParseTime v [] = timeUnix n 0 := by
    intro v n hps heq ha hb
    rw [heq, if_pos (string_ne_empty_of_data (goFormatInt_data_ne_nil n))]
    exact parseTime_small_text ha hb
  refine ⟨fun n => rfl, fun n => rfl, fun n => rfl, fun n => rfl, ?_, ?_, ?_, ?_, ?_, ?_, ?_⟩
  · intro n ha hb
    show timeUnix (wrapInt64 n) 0 = timeUnix n 0
    rw [hwrap n (by omega) hb]
  · intro n ha hb
    show timeUnix (wrapInt64 n) 0 = timeUnix n 0
    rw [hwrap n (by omega) hb]
  · intro n ha hb
    show timeUnix (wrapInt64 n) 0 = timeUnix (n - 18446744073709551616) 0
    have hw : wrapInt64 n = n - 18446744073709551616 := by unfold wrapInt64; omega
    rw [hw]
  · intro n ha hb
    exact hdefault (.int8 n) n rfl rfl (by omega) (by omega)
  · intro n ha hb
    exact hdefault (.int16 n) n rfl rfl (by omega) (by omega)
  · intro n ha hb
    exact hdefault (.uint8 n) n rfl rfl (by omega) (by omega)
  · intro n ha hb
    exact hdefault (.uint16 n) n rfl rfl (by omega) (by omega)

theorem claim_C4_witness :
    ParseTime (.int8 (-5)) [] = timeUnix (-5) 0 ∧
    ParseTime (.uint16 65535) [] = timeUnix 65535 0 :=
  ⟨claim_C4.2.2.2.2.2.2.2.1 (-5) (by decide) (by decide),
   claim_C4.2.2.2.2.2.2.2.2.2.2 65535 (by decide) (by decide)⟩

theorem parseCustomFormats_all_fail {str : String} :
    ∀ {formats : List String},
      (∀ f ∈ formats,
        (strHasPrefix "unix" f = true → parseUnixTimestamp str f = 0) ∧
        (strHasPrefix "unix" f = false → goTimeParse f str = none)) →
      parseCustomFormats str formats = zeroTime := by
  intro formats
  induction formats with
  | nil => intro h; rfl
  | cons f rest ih =>
    intro h
    have hf := h f (List.mem_cons_self _ _)
    have hrest : ∀ g ∈ rest, _ := fun g hg => h g (List.mem_cons_of_mem _ hg)
    cases hu : strHasPrefix "unix" f with
    | true =>
      simp only [parseCustomFormats, hu, if_true, hf.1 hu]
      rw [if_neg (by simp)]
      exact ih hrest
    | false =>
      simp only [parseCustomFormats, hu, Bool.false_eq_true, if_false, hf.2 hu]
      exact ih hrest

/-- C3: when explicit candidate formats are supplied and none of them parses
the text (neither as a layout nor as a unix pseudo-format), `ParseTime`
returns the zero instant and never consults the default table — shown by the
conclusion being independent of the default layouts, and by a pinned input
that the default table would parse. -/
theorem claim_C3 :
    (∀ (s : String) (formats : List String),
      formats ≠ [] →
      (∀ f ∈ formats,
        (strHasPrefix "unix" f = true → parseUnixTimestamp (trimSpace s) f = 0) ∧
        (strHasPrefix "unix" f = false → goTimeParse f (trimSpace s) = none)) →
      ParseTime (.str s) formats = zeroTime)
  ∧ goTimeParse TimeFormatDate "2024-10-14" = some (timeUnix 1728864000 0)
  ∧ ParseTime (.str "2024-10-14") [TimeFormatDateUS] = zeroTime
  ∧ ParseTime (.str "2024-10-14") ["01/02/2006", "unix-milli"] = zeroTime
  ∧ ParseTime (.str "2024-10-14") [] = timeUnix 1728864000 0 := by
  refine ⟨?_, by decide, by decide, by decide, by decide⟩
  intro s formats hne h
  show parseTimeFromString s formats = zeroTime
  simp only [parseTimeFromString]
  by_cases he : trimSpace s = ""
  · rw [if_pos he]
  · rw [if_neg he, if_pos hne]
    exact parseCustomFormats_all_fail h

theorem claim_C3_witness : ParseTime (.str "2024-10-14") ["02-01-2006"] = zeroTime :=
  claim_C3.1 "2024-10-14" ["02-01-2006"] (by decide) (by decide)

/-! ### Shape inversion for the `MM/DD/YYYY` layout -/

theorem read2_some_inv {cs : List Char} {v : Int} {rest : List Char}
    (h : read2 cs = some (v, rest)) :
    ∃ a b, cs = a :: b :: rest ∧ isDigit a = true ∧ isDigit b = true := by
  match cs with
  | [] => cases h
  | [a] => cases h
  | a :: b :: r =>
    by_cases hd : (isDigit a && isDigit b) = true
    · refine ⟨a, b, ?_, ?_, ?_⟩
      · simp only [read2, if_pos hd, Option.some.injEq, Prod.mk.injEq] at h
        rw [h.2]
      · exact (Bool.and_eq_true _ _).mp hd |>.1
      · exact (Bool.and_eq_true _ _).mp hd |>.2
    · simp only [read2, if_neg hd] at h
      cases h

theorem read4_some_inv {cs : List Char} {v : Int} {rest : List Char}
    (h : read4 cs = some (v, rest)) :
    ∃ a b c d, cs = a :: b :: c :: d :: rest ∧ isDigit a = true ∧ isDigit b = true ∧
      isDigit c = true ∧ isDigit d = true := by
  match cs with
  | [] => cases h
  | [a] => cases h
  | [a, b] => cases h
  | [a, b, c] => cases h
  | a :: b :: c :: d :: r =>
    by_cases hd : (isDigit a && isDigit b && isDigit c && isDigit d) = true
    · refine ⟨a, b, c, d, ?_, ?_, ?_, ?_, ?_⟩
      · simp only [read4, if_pos hd, Option.some.injEq, Prod.mk.injEq] at h
        rw [h.2]
      all_goals
        simp only [Bool.and_eq_true] at hd
        tauto
    · simp only [read4, if_neg hd] at h
      cases h

theorem runToks_cons_inv {t : Tok} {ts : List Tok} {acc acc2 : ParseAcc} {cs : List Char}
    (h : runToks (t :: ts) acc cs = some acc2) :
    ∃ a3 cs3, runTok t (headIsFrac ts) acc cs = some (a3, cs3) ∧
      runToks ts a3 cs3 = some acc2 := by
  cases hr : runTok t (headIsFrac ts) acc cs with
  | none =>
    simp only [runToks, hr] at h
    exact Option.noConfusion h
  | some p =>
    obtain ⟨a3, cs3⟩ := p
    refine ⟨a3, cs3, rfl, ?_⟩
    simp only [runToks, hr] at h
    exact h

theorem runTok_mon2_inv {b : Bool} {acc acc2 : ParseAcc} {cs cs2 : List Char}
    (h : runTok .mon2 b acc cs = some (acc2, cs2)) :
    ∃ x y, cs = x :: y :: cs2 ∧ isDigit x = true ∧ isDigit y = true := by
  simp only [runTok] at h
  cases hr : read2 cs with
  | none => rw [hr] at h; cases h
  | some p =>
    rw [hr] at h
    simp only [Option.some.injEq, Prod.mk.injEq] at h
    obtain ⟨a2, b2, hcs, hx, hy⟩ := read2_some_inv hr
    exact ⟨a2, b2, by rw [hcs, h.2], hx, hy⟩

theorem runTok_day2_inv {b : Bool} {acc acc2 : ParseAcc} {cs cs2 : List Char}
    (h : runTok .day2 b acc cs = some (acc2, cs2)) :
    ∃ x y, cs = x :: y :: cs2 ∧ isDigit x = true ∧ isDigit y = true := by
  simp only [runTok] at h
  cases hr : read2 cs with
  | none => rw [hr] at h; cases h
  | some p =>
    rw [hr] at h
    simp only [Option.some.injEq, Prod.mk.injEq] at h
    obtain ⟨a2, b2, hcs, hx, hy⟩ := read2_some_inv hr
    exact ⟨a2, b2, by rw [hcs, h.2], hx, hy⟩

theorem runTok_year4_inv {b : Bool} {acc acc2 : ParseAcc} {cs cs2 : List Char}
    (h : runTok .year4 b acc cs = some (acc2, cs2)) :
    ∃ x y z w, cs = x :: y :: z :: w :: cs2 ∧ isDigit x = true ∧ isDigit y = true ∧
      isDigit z = true ∧ isDigit w = true := by
  simp only [runTok] at h
  cases hr : read4 cs with
  | none => rw [hr] at h; cases h
  | some p =>
    rw [hr] at h
    simp only [Option.some.injEq, Prod.mk.injEq] at h
    obtain ⟨a2, b2, c2, d2, hcs, hx, hy, hz, hw⟩ := read4_some_inv hr
    exact ⟨a2, b2, c2, d2, by rw [hcs, h.2], hx, hy, hz, hw⟩

theorem runTok_lit_inv {c : Char} {b : Bool} {acc acc2 : ParseAcc} {cs cs2 : List Char}
    (h : runTok (.lit c) b acc cs = some (acc2, cs2)) : cs = c :: cs2 := by
  match cs with
  | [] => cases h
  | x :: rest =>
    simp only [runTok] at h
    by_cases hx : x = c
    · rw [if_pos hx] at h
      simp only [Option.some.injEq, Prod.mk.injEq] at h
      rw [hx, h.2]
    · rw [if_neg hx] at h
      cases h

theorem runToks_nil_inv {acc acc2 : ParseAcc} {cs : List Char}
    (h : runToks [] acc cs = some acc2) : cs = [] := by
  by_cases hc : cs = []
  · exact hc
  · simp only [runToks, if_neg hc] at h
    exact Option.noConfusion h

/-- A value accepted by the `MM/DD/YYYY` layout consists of two digits, a
slash, two digits, a slash, and four digits. -/
theorem dateUS_shape {s : String} {t : GoTime} (h : goTimeParse TimeFormatDateUS s = some t) :
    ∃ a b c d e f g k, s.data = [a, b, '/', c, d, '/', e, f, g, k] ∧
      ∀ x ∈ s.data, isDigit x = true ∨ x = '/' := by
  unfold goTimeParse at h
  rw [show tokenize (TimeFormatDateUS.data) =
    [Tok.mon2, Tok.lit '/', Tok.day2, Tok.lit '/', Tok.year4] from by decide] at h
  cases hrun : runToks [Tok.mon2, Tok.lit '/', Tok.day2, Tok.lit '/', Tok.year4] {} s.data with
  | none => rw [hrun] at h; cases h
  | some acc =>
    obtain ⟨a1, cs1, h1, hrest1⟩ := runToks_cons_inv hrun
    obtain ⟨a2, cs2, h2, hrest2⟩ := runToks_cons_inv hrest1
    obtain ⟨a3, cs3, h3, hrest3⟩ := runToks_cons_inv hrest2
    obtain ⟨a4, cs4, h4, hrest4⟩ := runToks_cons_inv hrest3
    obtain ⟨a5, cs5, h5, hrest5⟩ := runToks_cons_inv hrest4
    have hnil := runToks_nil_inv hrest5
    obtain ⟨x1, x2, hcs0, hd1, hd2⟩ := runTok_mon2_inv h1
    have hcs1 := runTok_lit_inv h2
    obtain ⟨x3, x4, hcs2, hd3, hd4⟩ := runTok_day2_inv h3
    have hcs3 := runTok_lit_inv h4
    obtain ⟨x5, x6, x7, x8, hcs4, hd5, hd6, hd7, hd8⟩ := runTok_year4_inv h5
    subst hnil
    rw [hcs4] at hcs3
    rw [hcs3] at hcs2
    rw [hcs2] at hcs1
    rw [hcs1] at hcs0
    refine ⟨x1, x2, x3, x4, x5, x6, x7, x8, hcs0, ?_⟩
    intro x hx
    rw [hcs0] at hx
    simp only [List.mem_cons, List.not_mem_nil, or_false] at hx
    rcases hx with rfl | rfl | rfl | rfl | rfl | rfl | rfl | rfl | rfl | rfl
    · exact Or.inl hd1
    · exact Or.inl hd2
    · exact Or.inr rfl
    · exact Or.inl hd3
    · exact Or.inl hd4
    · exact Or.inr rfl
    · exact Or.inl hd5
    · exact Or.inl hd6
    · exact Or.inl hd7
    · exact Or.inl hd8

theorem runToks_y4_read4none {ts : List Tok} {acc : ParseAcc} {cs : List Char}
    (h : read4 cs = none) : runToks (.year4 :: ts) acc cs = none := by
  simp only [runToks, runTok, h]

/-- C8: with no explicit formats, the default table is tried in declared
order, so a slash-separated date matching both `MM/DD/YYYY` and `DD/MM/YYYY`
resolves to the month-first layout, which precedes the day-first layout in the
table; `"03/04/2025"` parses as March 4, 2025 (not April 3). -/
theorem claim_C8 :
    (∀ (s : String) (tUS tEU : GoTime),
      goTimeParse TimeFormatDateUS s = some tUS →
      goTimeParse TimeFormatDateEU s = some tEU →
      parseTimeFromString s [] = tUS)
  ∧ parseTimeFromString "03/04/2025" [] = timeUnix 1741046400 0
  ∧ goTimeParse TimeFormatDateUS "03/04/2025" = some (timeUnix 1741046400 0)
  ∧ goTimeParse TimeFormatDateEU "03/04/2025" = some (timeUnix 1743638400 0)
  ∧ defaultFormats.indexOf TimeFormatDateUS < defaultFormats.indexOf TimeFormatDateEU := by
  refine ⟨?_, by decide, by decide, by decide, by decide⟩
  intro s tUS tEU hUS hEU
  obtain ⟨a, b, c, d, e, f, g, k, hdata, hkinds⟩ := dateUS_shape hUS
  have hnosp : ∀ x ∈ s.data, isSpace x = false := by
    intro x hx
    rcases hkinds x hx with hd | rfl
    · exact isSpace_of_digit hd
    · decide
  have htrim := trimSpace_eq_self hnosp
  have hne : ¬s = "" := string_ne_empty_of_data (by rw [hdata]; simp)
  have hr4 : read4 s.data = none := by
    rw [hdata]
    exact read4_none_nondigit3 (by decide)
  have hfirst : tryFormatsList defaultFormats s = some tUS := by
    unfold defaultFormats
    rw [tryFormatsList_cons_skip (@goTimeParse_none_of_runToks TimeFormatRFC3339 s
      (runToks_y4_read4none hr4))]
    rw [tryFormatsList_cons_skip (@goTimeParse_none_of_runToks TimeFormatRFC3339Nano s
      (runToks_y4_read4none hr4))]
    rw [tryFormatsList_cons_skip (@goTimeParse_none_of_runToks TimeFormatDateTime s
      (runToks_y4_read4none hr4))]
    rw [tryFormatsList_cons_skip (@goTimeParse_none_of_runToks TimeFormatDateTimeT s
      (runToks_y4_read4none hr4))]
    rw [tryFormatsList_cons_skip (@goTimeParse_none_of_runToks TimeFormatDateTimeTZ s
      (runToks_y4_read4none hr4))]
    rw [tryFormatsList_cons_skip (@goTimeParse_none_of_runToks TimeFormatDateTimeTMilliZ s
      (runToks_y4_read4none hr4))]
    rw [tryFormatsList_cons_skip (@goTimeParse_none_of_runToks TimeFormatDateTimeTMicroZ s
      (runToks_y4_read4none hr4))]
    rw [tryFormatsList_cons_skip (@goTimeParse_none_of_runToks TimeFormatDateTimeTNanoZ s
      (runToks_y4_read4none hr4))]
    rw [tryFormatsList_cons_skip (@goTimeParse_none_of_runToks TimeFormatDateTimeTOffset s
      (runToks_y4_read4none hr4))]
    rw [tryFormatsList_cons_skip (@goTimeParse_none_of_runToks TimeFormatDateTimeMilli s
      (runToks_y4_read4none hr4))]
    rw [tryFormatsList_cons_skip (@goTimeParse_none_of_runToks TimeFormatDateTimeMicro s
      (runToks_y4_read4none hr4))]
    rw [tryFormatsList_cons_skip (@goTimeParse_none_of_runToks TimeFormatDateTimeNano s
      (runToks_y4_read4none hr4))]
    rw [tryFormatsList_cons_skip (@goTimeParse_none_of_runToks TimeFormatDate s
      (runToks_y4_read4none hr4))]
    rw [tryFormatsList_cons_skip (@goTimeParse_none_of_runToks TimeFormatDateSlash s
      (runToks_y4_read4none hr4))]
    simp only [tryFormatsList, hUS]
  show parseTimeFromString s [] = tUS
  simp only [parseTimeFromString, htrim, hfirst]
  rw [if_neg hne, if_neg (by simp : ¬([] : List String) ≠ [])]

theorem claim_C8_witness : parseTimeFromString "03/04/2025" [] = timeUnix 1741046400 0 :=
  claim_C8.1 "03/04/2025" (timeUnix 1741046400 0) (timeUnix 1743638400 0)
    (by decide) (by decide)

/-! ### Truncation bounds -/

theorem ratTrunc_sub_lt (x : ℚ) : |x - (ratTrunc x : ℚ)| < 1 := by
  unfold ratTrunc
  by_cases h : 0 ≤ x
  · rw [if_pos h]
    have h1 := Int.floor_le x
    have h2 := Int.lt_floor_add_one x
    rw [abs_lt]
    constructor <;> linarith
  · rw [if_neg h]
    have h1 := Int.le_ceil x
    have h2 := Int.ceil_lt_add_one x
    rw [abs_lt]
    constructor <;> linarith

theorem ratTrunc_range {q : ℚ} {B : Int} (hB : 0 ≤ B) (h : |q| ≤ (B : ℚ)) :
    -B ≤ ratTrunc q ∧ ratTrunc q ≤ B := by
  unfold ratTrunc
  rw [abs_le] at h
  by_cases h0 : 0 ≤ q
  · rw [if_pos h0]
    constructor
    · have := Int.floor_nonneg.mpr h0
      omega
    · calc ⌊q⌋ ≤ ⌊(B : ℚ)⌋ := Int.floor_le_floor h.2
        _ = B := Int.floor_intCast B
  · rw [if_neg h0]
    constructor
    · calc -B = ⌈((-B : Int) : ℚ)⌉ := by rw [Int.ceil_intCast]
        _ ≤ ⌈q⌉ := Int.ceil_le_ceil (by push_cast; linarith [h.1])
    · have hle : ⌈q⌉ ≤ 0 := Int.ceil_le.mpr (by push_cast; linarith [lt_of_not_ge h0])
      omega

/-- C10: an explicit format starting with `"unix"` feeds `parseUnixTimestamp`;
when the text fails integer parsing but parses as a finite float `x`, the
unit named by the format is ignored and `x` is interpreted as seconds with
fractional nanoseconds: the result is `trunc(x)` seconds plus
`trunc(frac(x) * 10^9)` nanoseconds after the epoch, e.g.
`ParseTime("1.5", "unix-milli")` is 1.5 seconds after the epoch. -/
theorem claim_C10 :
    (∀ (fmt s : String) (x : ℚ),
      strHasPrefix "unix" fmt = true →
      goParseInt64 (trimSpace s) = none →
      goParseFloat (trimSpace s) = some (.finite x) →
      int64Min ≤ ratTrunc x → ratTrunc x ≤ int64Max →
      ParseTime (.str s) [fmt] =
        timeUnix (ratTrunc x) (ratTrunc ((x - (ratTrunc x : ℚ)) * 1000000000)))
  ∧ ParseTime (.str "1.5") [TimeFormatUnixMilli] = timeUnix 1 500000000
  ∧ ParseTime (.str "1.5") [TimeFormatUnixMicro] = timeUnix 1 500000000
  ∧ ParseTime (.str "1.5") [TimeFormatUnixNano] = timeUnix 1 500000000
  ∧ ParseTime (.str "1.5") [TimeFormatUnix] = timeUnix 1 500000000 := by
  refine ⟨?_, by decide, by decide, by decide, by decide⟩
  intro fmt s x hpre hint hfl h1 h2
  have hne : ¬trimSpace s = "" := by
    intro h0
    rw [h0] at hfl
    have : goParseFloat "" = none := rfl
    rw [this] at hfl
    exact Option.noConfusion hfl
  have hsec : goFloatToInt (.finite x) = ratTrunc x := by
    simp only [goFloatToInt]
    rw [if_pos ⟨h1, h2⟩]
  have hfbound : |(x - (ratTrunc x : ℚ)) * 1000000000| ≤ ((1000000000 : Int) : ℚ) := by
    rw [abs_mul]
    have h3 := ratTrunc_sub_lt x
    have : |(1000000000 : ℚ)| = 1000000000 := abs_of_nonneg (by norm_num)
    rw [this]
    push_cast
    nlinarith [abs_nonneg (x - (ratTrunc x : ℚ))]
  obtain ⟨hb1, hb2⟩ := ratTrunc_range (by norm_num) hfbound
  have hnsec : goFloatToInt (.finite ((x - (ratTrunc x : ℚ)) * 1000000000)) =
      ratTrunc ((x - (ratTrunc x : ℚ)) * 1000000000) := by
    simp only [goFloatToInt]
    rw [if_pos ⟨by unfold int64Min; omega, by unfold int64Max; omega⟩]
  have hput : parseUnixTimestamp (trimSpace s) fmt =
      timeUnix (ratTrunc x) (ratTrunc ((x - (ratTrunc x : ℚ)) * 1000000000)) := by
    simp only [parseUnixTimestamp, hint, hfl]
    unfold floatToTime
    rw [hsec]
    simp only [GoFloat.sub, GoFloat.mul]
    rw [ratSub_eq, ratMul_eq, hnsec]
  show parseTimeFromString s [fmt] = _
  simp only [parseTimeFromString]
  rw [if_neg hne, if_pos (by simp : ([fmt] : List String) ≠ [])]
  simp only [parseCustomFormats, hpre, if_true, hput]
  by_cases hz : timeUnix (ratTrunc x) (ratTrunc ((x - (ratTrunc x : ℚ)) * 1000000000)) = 0
  · rw [if_neg (by simp [hz]), hz]
    rfl
  · rw [if_pos hz]

theorem claim_C10_witness :
    ParseTime (.str "2.5") ["unix-milli"] =
      timeUnix (ratTrunc (mkRat 5 2))
        (ratTrunc (((mkRat 5 2) - (ratTrunc (mkRat 5 2) : ℚ)) * 1000000000)) :=
  claim_C10.1 "unix-milli" "2.5" (mkRat 5 2) (by decide) (by decide) (by decide)
    (by decide) (by decide)

/-- C7: for every string input, `ParseBool` trims whitespace and lower-cases
the text, returns `true` on the true-token set, `false` on the false-token set
(including the empty string), otherwise returns the nonzero test of a numeric
parse of the text, and `false` if that parse fails; with the pinned examples
`"YES"`, `"Off"`, `"3.14"`, `""`, `"maybe"`. -/
theorem claim_C7 :
    (∀ s : String,
      trimSpace (toLowerStr s) ∈ ["true", "t", "yes", "y", "on", "1"] →
      ParseBool (.str s) = true)
  ∧ (∀ s : String,
      trimSpace (toLowerStr s) ∈ ["false", "f", "no", "n", "off", "0", ""] →
      ParseBool (.str s) = false)
  ∧ (∀ s : String,
      trimSpace (toLowerStr s) ∉ ["true", "t", "yes", "y", "on", "1"] →
      trimSpace (toLowerStr s) ∉ ["false", "f", "no", "n", "off", "0", ""] →
      ParseBool (.str s) =
        ((goParseFloat (trimSpace (toLowerStr s))).map GoFloat.isNonzero).getD false)
  ∧ ParseBool (.str "YES") = true
  ∧ ParseBool (.str "Off") = false
  ∧ ParseBool (.str "3.14") = true
  ∧ ParseBool (.str "") = false
  ∧ ParseBool (.str "maybe") = false := by
  refine ⟨?_, ?_, ?_, by decide, by decide, by decide, by decide, by decide⟩
  · intro s hmem
    simp only [ParseBool]
    simp only [List.mem_cons, List.not_mem_nil, or_false] at hmem
    generalize trimSpace (toLowerStr s) = u at hmem ⊢
    rcases hmem with rfl | rfl | rfl | rfl | rfl | rfl <;> decide
  · intro s hmem
    simp only [ParseBool]
    simp only [List.mem_cons, List.not_mem_nil, or_false] at hmem
    generalize trimSpace (toLowerStr s) = u at hmem ⊢
    rcases hmem with rfl | rfl | rfl | rfl | rfl | rfl | rfl <;> decide
  · intro s hT hF
    simp only [ParseBool]
    simp only [List.mem_cons, List.not_mem_nil, or_false] at hT hF
    generalize trimSpace (toLowerStr s) = u at hT hF ⊢
    rw [if_neg hT, if_neg hF]
    cases h : goParseFloat u <;> simp [h]

theorem claim_C7_witness : ParseBool (.str " Y ") = true :=
  claim_C7.1 " Y " (by decide)

/-- C6: `ParseFloat64Round` dispatches on the mode with `m = 10^decimalPlaces`
and negative `decimalPlaces` clamped to 0: `Up` is `ceil(value*m)/m`, `Down`
is `floor(value*m)/m`, `Auto` is round-half-away-from-zero, `None` returns the
coerced value unchanged for every `decimalPlaces`; with the pinned boundary
examples `Round(2.341, up, 2) = 2.35`, `Round(2.349, down, 2) = 2.34`,
`Round(2.345, auto, 2) = 2.35`.  Finite float arithmetic is modelled exactly;
the three pinned examples agree with IEEE double evaluation of the Go code. -/
theorem claim_C6 :
    (∀ v dp, ParseFloat64Round v RoundNone dp = ParseFloat64 v)
  ∧ (∀ v mode dp, dp < 0 → ParseFloat64Round v mode dp = ParseFloat64Round v mode 0)
  ∧ (∀ (q : ℚ) (dp : Int), 0 ≤ dp →
      ParseFloat64Round (.float64 (.finite q)) RoundUp dp =
        .finite ((⌈q * (10 : ℚ) ^ dp.toNat⌉ : ℚ) / (10 : ℚ) ^ dp.toNat))
  ∧ (∀ (q : ℚ) (dp : Int), 0 ≤ dp →
      ParseFloat64Round (.float64 (.finite q)) RoundDown dp =
        .finite ((⌊q * (10 : ℚ) ^ dp.toNat⌋ : ℚ) / (10 : ℚ) ^ dp.toNat))
  ∧ (∀ (q : ℚ) (dp : Int), 0 ≤ dp →
      ParseFloat64Round (.float64 (.finite q)) RoundAuto dp =
        .finite ((ratHalfAway (q * (10 : ℚ) ^ dp.toNat) : ℚ) / (10 : ℚ) ^ dp.toNat))
  ∧ ParseFloat64Round (.float64 (.finite (mkRat 2341 1000))) RoundUp 2 = .finite (mkRat 235 100)
  ∧ ParseFloat64Round (.float64 (.finite (mkRat 2349 1000))) RoundDown 2 = .finite (mkRat 234 100)
  ∧ ParseFloat64Round (.float64 (.finite (mkRat 2345 1000))) RoundAuto 2 = .finite (mkRat 235 100) := by
  refine ⟨?_, ?_, ?_, ?_, ?_, by decide, by decide, by decide⟩
  · intro v dp
    simp [ParseFloat64Round, RoundNone]
  · intro v mode dp hdp
    unfold ParseFloat64Round
    split_ifs
    · rfl
    · unfold ParseFloat64RoundUp
      rw [if_pos hdp, if_neg (by omega : ¬(0 : Int) < 0)]
    · unfold ParseFloat64RoundDown
      rw [if_pos hdp, if_neg (by omega : ¬(0 : Int) < 0)]
    · unfold ParseFloat64RoundAuto
      rw [if_pos hdp, if_neg (by omega : ¬(0 : Int) < 0)]
    · rfl
  · intro q dp hdp
    unfold ParseFloat64Round
    rw [if_neg (by decide : ¬RoundUp = RoundNone), if_pos rfl]
    exact roundUp_finite q dp hdp
  · intro q dp hdp
    unfold ParseFloat64Round
    rw [if_neg (by decide : ¬RoundDown = RoundNone),
      if_neg (by decide : ¬RoundDown = RoundUp), if_pos rfl]
    exact roundDown_finite q dp hdp
  · intro q dp hdp
    unfold ParseFloat64Round
    rw [if_neg (by decide : ¬RoundAuto = RoundNone),
      if_neg (by decide : ¬RoundAuto = RoundUp),
      if_neg (by decide : ¬RoundAuto = RoundDown), if_pos rfl]
    exact roundAuto_finite q dp hdp

theorem roundUpZero (dp : Int) : ParseFloat64RoundUp (.float64 (.finite 0)) dp = .finite 0 := by
  unfold ParseFloat64RoundUp ParseFloat64 mathPow10
  simp only [GoFloat.mul, mathCeil, GoFloat.div]
  rw [if_neg (pow10_def_ne_zero _)]
  rw [ratMul_eq, zero_mul, ratDiv_eq]
  norm_num

theorem roundDownZero (dp : Int) : ParseFloat64RoundDown (.float64 (.finite 0)) dp = .finite 0 := by
  unfold ParseFloat64RoundDown ParseFloat64 mathPow10
  simp only [GoFloat.mul, mathFloor, GoFloat.div]
  rw [if_neg (pow10_def_ne_zero _)]
  rw [ratMul_eq, zero_mul, ratDiv_eq]
  norm_num

theorem roundAutoZero (dp : Int) : ParseFloat64RoundAuto (.float64 (.finite 0)) dp = .finite 0 := by
  unfold ParseFloat64RoundAuto ParseFloat64 mathPow10
  simp only [GoFloat.mul, mathRound, GoFloat.div]
  rw [if_neg (pow10_def_ne_zero _)]
  rw [ratMul_eq, zero_mul, ratDiv_eq]
  have : ratHalfAway 0 = 0 := by decide
  rw [this]
  norm_num

/-- C2: every coercion function is total by construction in this embedding
(each is a plain function into its target type, with no error channel), and on
every failure path it returns the target type's zero value: empty string, `0`,
`0.0`, `false`, or the zero instant.  The conjuncts cover each function's
failure channels, including nil, empty and whitespace-only text, malformed and
oversized numeric text, and NaN floats. -/
theorem claim_C2 :
    ParseString .nil = ""
  ∧ ParseInt .nil = 0
  ∧ (∀ s : String, goParseInt64 s = none → ParseInt (.str s) = 0)
  ∧ ParseFloat64 .nil = .finite 0
  ∧ (∀ s : String, goParseFloat s = none → ParseFloat64 (.str s) = .finite 0)
  ∧ ParseBool .nil = false
  ∧ (∀ s : String,
      trimSpace (toLowerStr s) ∉ ["true", "t", "yes", "y", "on", "1"] →
      trimSpace (toLowerStr s) ∉ ["false", "f", "no", "n", "off", "0", ""] →
      goParseFloat (trimSpace (toLowerStr s)) = none →
      ParseBool (.str s) = false)
  ∧ (∀ fs, ParseTime .nil fs = zeroTime)
  ∧ (∀ (s : String) fs, trimSpace s = "" → ParseTime (.str s) fs = zeroTime)
  ∧ (∀ fs, ParseTime (.timePtr none) fs = zeroTime)
  ∧ (∀ mode dp, ParseFloat64Round .nil mode dp = .finite 0)
  ∧ ParseInt (.str "99999999999999999999") = 0
  ∧ ParseFloat64 (.str "   ") = .finite 0
  ∧ ParseFloat64 (.float64 .nan) = .nan
  ∧ ParseBool (.float64 .nan) = true
  ∧ ParseBool (.str "  ") = false
  ∧ ParseTime (.str " \t ") [] = zeroTime
  ∧ ParseString (.float64 (.inf false)) = "+Inf" := by
  refine ⟨rfl, rfl, ?_, rfl, ?_, rfl, ?_, fun fs => rfl, ?_, fun fs => rfl, ?_,
    by decide, by decide, rfl, rfl, by decide, by decide, rfl⟩
  · intro s h
    simp only [ParseInt, h]
  · intro s h
    simp only [ParseFloat64, h]
  · intro s hT hF hp
    simp only [ParseBool]
    simp only [List.mem_cons, List.not_mem_nil, or_false] at hT hF
    generalize trimSpace (toLowerStr s) = u at hT hF hp ⊢
    rw [if_neg hT, if_neg hF, hp]
  · intro s fs h
    simp only [ParseTime, parseTimeFromString, h]
    rfl
  · intro mode dp
    unfold ParseFloat64Round
    have hv : ParseFloat64 Value.nil = .finite 0 := rfl
    rw [hv]
    split_ifs
    · rfl
    · exact roundUpZero dp
    · exact roundDownZero dp
    · exact roundAutoZero dp
    · rfl

theorem claim_C2_witness : ParseInt (.str "12.5") = 0 :=
  claim_C2.2.2.1 "12.5" (by decide)

/-- C5 counterexample: the claim says every unsigned integer kind passes
through `ParseInt`, but the Go type switch omits the unsigned kinds, so
`ParseInt(uint8(5))` falls to the default branch and returns 0, not 5. -/
theorem claim_C5_counterexample : ParseInt (.uint8 5) = 0 ∧ (0 : Int) ≠ 5 := by
  exact ⟨rfl, by decide⟩

/-- C5 (amended): `ParseInt` passes the signed integer kinds through; the
unsigned kinds are not in the type switch and yield 0; float kinds truncate
toward zero (with the pinned examples 2.9 and -2.9); text undergoes a strict
base-10 integer parse (optional sign, digits only, 64-bit range) yielding 0 on
any failure, including leading or trailing whitespace and decimal points; and
every other kind yields 0. -/
theorem claim_C5 :
    (∀ n : Int, ParseInt (.int n) = n ∧ ParseInt (.int8 n) = n ∧ ParseInt (.int16 n) = n ∧
      ParseInt (.int32 n) = n ∧ ParseInt (.int64 n) = n)
  ∧ (∀ n : Int, ParseInt (.uint n) = 0 ∧ ParseInt (.uint8 n) = 0 ∧ ParseInt (.uint16 n) = 0 ∧
      ParseInt (.uint32 n) = 0 ∧ ParseInt (.uint64 n) = 0)
  ∧ (∀ q : ℚ, int64Min ≤ ratTrunc q → ratTrunc q ≤ int64Max →
      ParseInt (.float64 (.finite q)) = ratTrunc q ∧ ParseInt (.float32 (.finite q)) = ratTrunc q)
  ∧ ParseInt (.float64 (.finite (mkRat 29 10))) = 2
  ∧ ParseInt (.float64 (.finite (mkRat (-29) 10))) = -2
  ∧ (∀ s : String, ParseInt (.str s) = (goParseInt64 s).getD 0)
  ∧ ParseInt (.str " 7") = 0
  ∧ ParseInt (.str "7 ") = 0
  ∧ ParseInt (.str "2.9") = 0
  ∧ ParseInt (.str "12a") = 0
  ∧ ParseInt .nil = 0
  ∧ (∀ b, ParseInt (.bool b) = 0)
  ∧ (∀ t, ParseInt (.time t) = 0)
  ∧ (∀ r z, ParseInt (.other r z) = 0) := by
  refine ⟨fun n => ⟨rfl, rfl, rfl, rfl, rfl⟩, fun n => ⟨rfl, rfl, rfl, rfl, rfl⟩, ?_,
    by decide, by decide, ?_, by decide, by decide, by decide, by decide, rfl,
    fun b => rfl, fun t => rfl, fun r z => rfl⟩
  · intro q h1 h2
    constructor <;>
    · simp only [ParseInt, goFloatToInt]
      rw [if_pos ⟨h1, h2⟩]
  · intro s
    simp only [ParseInt]
    cases h : goParseInt64 s <;> simp [h]

theorem claim_C5_witness :
    ParseInt (.float64 (.finite (mkRat 5 2))) = ratTrunc (mkRat 5 2) ∧
    ParseInt (.float32 (.finite (mkRat 5 2))) = ratTrunc (mkRat 5 2) :=
  claim_C5.2.2.1 (mkRat 5 2) (by decide) (by decide)

theorem claim_C6_witness :
    ParseFloat64Round (.float64 (.finite (mkRat 1 8))) RoundUp 2 =
      .finite ((⌈(mkRat 1 8) * (10 : ℚ) ^ (2 : Int).toNat⌉ : ℚ) / (10 : ℚ) ^ (2 : Int).toNat) :=
  claim_C6.2.2.1 (mkRat 1 8) 2 (by norm_num)

/-! ### Round-trip helpers for C9: parsing the engine's own float rendering -/

theorem takeWhile_digits_eq_self {l : List Char} (h : ∀ c ∈ l, isDigit c = true) :
    l.takeWhile isDigit = l := by
  induction l with
  | nil => rfl
  | cons c rest ih =>
    have hc := h c (List.mem_cons_self _ _)
    simp only [List.takeWhile_cons, hc, if_true]
    rw [ih (fun x hx => h x (List.mem_cons_of_mem _ hx))]

theorem dropWhile_digits_eq_nil {l : List Char} (h : ∀ c ∈ l, isDigit c = true) :
    l.dropWhile isDigit = [] := by
  induction l with
  | nil => rfl
  | cons c rest ih =>
    have hc := h c (List.mem_cons_self _ _)
    simp only [List.dropWhile_cons, hc, if_true]
    exact ih (fun x hx => h x (List.mem_cons_of_mem _ hx))

theorem takeWhile_digits_append {l1 l2 : List Char} (h : ∀ c ∈ l1, isDigit c = true) :
    (l1 ++ l2).takeWhile isDigit = l1 ++ l2.takeWhile isDigit := by
  induction l1 with
  | nil => simp
  | cons c rest ih =>
    have hc := h c (List.mem_cons_self _ _)
    simp only [List.cons_append, List.takeWhile_cons, hc, if_true]
    rw [ih (fun x hx => h x (List.mem_cons_of_mem _ hx))]

theorem dropWhile_digits_append {l1 l2 : List Char} (h : ∀ c ∈ l1, isDigit c = true) :
    (l1 ++ l2).dropWhile isDigit = l2.dropWhile isDigit := by
  induction l1 with
  | nil => simp
  | cons c rest ih =>
    have hc := h c (List.mem_cons_self _ _)
    simp only [List.cons_append, List.dropWhile_cons, hc, if_true]
    exact ih (fun x hx => h x (List.mem_cons_of_mem _ hx))

theorem spanDigits_digits {l : List Char} (h : ∀ c ∈ l, isDigit c = true) :
    spanDigits l = (l, []) := by
  unfold spanDigits
  rw [takeWhile_digits_eq_self h, dropWhile_digits_eq_nil h]

theorem spanDigits_digits_dot {ds fs : List Char} (h : ∀ c ∈ ds, isDigit c = true) :
    spanDigits (ds ++ '.' :: fs) = (ds, '.' :: fs) := by
  unfold spanDigits
  rw [takeWhile_digits_append h, dropWhile_digits_append h]
  rw [List.takeWhile_cons, if_neg (by decide)]
  rw [List.dropWhile_cons, if_neg (by decide)]
  rw [List.append_nil]

theorem digitsToNat_replicate_zero (z : Nat) (l : List Char) :
    digitsToNat (List.replicate z '0' ++ l) = digitsToNat l := by
  induction z with
  | zero => rfl
  | succ z ih =>
    rw [List.replicate_succ, List.cons_append]
    have hz : digitsToNat ('0' :: (List.replicate z '0' ++ l)) =
        digitsToNat (List.replicate z '0' ++ l) := rfl
    rw [hz, ih]

theorem digitsToNat_padDigits (k m : Nat) : digitsToNat (padDigits k m) = m := by
  unfold padDigits
  rw [digitsToNat_replicate_zero, digitsToNat_formatNat]

theorem padDigits_length {k m : Nat} (h : (formatNat m).length ≤ k) :
    (padDigits k m).length = k := by
  unfold padDigits
  rw [List.length_append, List.length_replicate]
  omega

theorem padDigits_all_digits (k m : Nat) : ∀ c ∈ padDigits k m, isDigit c = true := by
  intro c hc
  unfold padDigits at hc
  rw [List.mem_append] at hc
  cases hc with
  | inl h => rw [List.eq_of_mem_replicate h]; decide
  | inr h => exact formatNat_all_digits m c h

theorem parseDecMantissa_digits {ds : List Char} (hne : ds ≠ [])
    (h : ∀ c ∈ ds, isDigit c = true) :
    parseDecMantissa ds = some ((digitsToNat ds : ℚ)) := by
  simp only [parseDecMantissa, spanDigits_digits h]
  rw [if_neg hne]
  simp only [parseExpPart]
  rw [mkMantissa_false]
  norm_num

theorem parseDecMantissa_digits_dot {ds fs : List Char} (hne : ds ≠ [])
    (hd : ∀ c ∈ ds, isDigit c = true) (hf : ∀ c ∈ fs, isDigit c = true) :
    parseDecMantissa (ds ++ '.' :: fs) =
      some ((digitsToNat ds : ℚ) + (digitsToNat fs : ℚ) / (10 : ℚ) ^ fs.length) := by
  simp only [parseDecMantissa, spanDigits_digits_dot hd]
  rw [spanDigits_digits hf]
  rw [if_neg (fun hcon => hne hcon.1)]
  simp only [parseExpPart]
  rw [mkMantissa_false]
  norm_num

/-- Parsing the printed body `⌊S/10^k⌋ "." (S mod 10^k padded to k digits)`
recovers the exact rational `S / 10^k`. -/
theorem parseDecMantissa_body (S k : Nat) :
    parseDecMantissa (formatNat (S / 10 ^ k) ++
        (if k = 0 then [] else '.' :: padDigits k (S % 10 ^ k))) =
      some ((S : ℚ) / (10 : ℚ) ^ k) := by
  by_cases hk : k = 0
  · subst hk
    rw [if_pos rfl, List.append_nil]
    rw [parseDecMantissa_digits (formatNat_ne_nil _) (formatNat_all_digits _)]
    rw [digitsToNat_formatNat]
    norm_num
  · rw [if_neg hk]
    have hlen : (formatNat (S % 10 ^ k)).length ≤ k :=
      formatNat_length_le (by omega) (Nat.mod_lt _ (pow_pos (by norm_num) k))
    rw [parseDecMantissa_digits_dot (formatNat_ne_nil _) (formatNat_all_digits _)
      (padDigits_all_digits _ _)]
    rw [digitsToNat_formatNat, digitsToNat_padDigits, padDigits_length hlen]
    congr 1
    have h10 : ((10 : ℚ) ^ k) ≠ 0 := pow_ne_zero _ (by norm_num)
    have hmod : ((10 : ℚ) ^ k) * ((S / 10 ^ k : Nat) : ℚ) + ((S % 10 ^ k : Nat) : ℚ) = (S : ℚ) := by
      exact_mod_cast congrArg (fun n : Nat => (n : ℚ)) (Nat.div_add_mod S (10 ^ k))
    field_simp
    linarith

theorem splitSign_head_digit {c : Char} {rest : List Char} (hc : isDigit c = true) :
    splitSign (c :: rest) = (false, c :: rest) := by
  have h1 : c ≠ '-' := by intro h; rw [h] at hc; exact absurd hc (by decide)
  have h2 : c ≠ '+' := by intro h; rw [h] at hc; exact absurd hc (by decide)
  simp [splitSign, h1, h2]

theorem splitSign_minus (l : List Char) : splitSign ('-' :: l) = (true, l) := by
  simp [splitSign]

/-- A list starting with a digit never lower-cases to one of the keyword forms
`inf`, `infinity`, `nan`. -/
theorem lowerList_cons_ne_special (c : Char) (rest : List Char) (hc : isDigit c = true) :
    lowerList (c :: rest) ≠ "inf".data ∧ lowerList (c :: rest) ≠ "infinity".data ∧
      lowerList (c :: rest) ≠ "nan".data := by
  have hinf : "inf".data = ['i', 'n', 'f'] := rfl
  have hinf2 : "infinity".data = ['i', 'n', 'f', 'i', 'n', 'i', 't', 'y'] := rfl
  have hnan : "nan".data = ['n', 'a', 'n'] := rfl
  refine ⟨?_, ?_, ?_⟩ <;> intro h
  · rw [hinf] at h
    simp only [lowerList, List.map_cons] at h
    injection h with h1 h2
    rw [toLowerChar_of_digit hc] at h1
    subst h1
    exact absurd hc (by decide)
  · rw [hinf2] at h
    simp only [lowerList, List.map_cons] at h
    injection h with h1 h2
    rw [toLowerChar_of_digit hc] at h1
    subst h1
    exact absurd hc (by decide)
  · rw [hnan] at h
    simp only [lowerList, List.map_cons] at h
    injection h with h1 h2
    rw [toLowerChar_of_digit hc] at h1
    subst h1
    exact absurd hc (by decide)

/-- `strconv.ParseFloat` applied to the printed form of a non-negative exact
decimal `S / 10^k` returns that rational (or fails on float64 overflow). -/
theorem goParseFloat_print (S k : Nat) :
    goParseFloat ⟨formatNat (S / 10 ^ k) ++
        (if k = 0 then [] else '.' :: padDigits k (S % 10 ^ k))⟩ =
      if ((S : ℚ) / (10 : ℚ) ^ k) < ratFloatMax
      then some (.finite ((S : ℚ) / (10 : ℚ) ^ k)) else none := by
  obtain ⟨c, rest, hds⟩ : ∃ c rest, formatNat (S / 10 ^ k) = c :: rest := by
    cases h : formatNat (S / 10 ^ k) with
    | nil => exact absurd h (formatNat_ne_nil _)
    | cons c rest => exact ⟨c, rest, rfl⟩
  have hc : isDigit c = true :=
    formatNat_all_digits _ c (by rw [hds]; exact List.mem_cons_self _ _)
  have hpm := parseDecMantissa_body S k
  rw [hds, List.cons_append] at hpm ⊢
  simp only [goParseFloat, splitSign_head_digit hc]
  rw [if_neg (not_or.mpr ⟨(lowerList_cons_ne_special c _ hc).1,
    (lowerList_cons_ne_special c _ hc).2.1⟩)]
  rw [if_neg (lowerList_cons_ne_special c _ hc).2.2]
  simp only [hpm]
  simp

/-- The negative-sign variant of `goParseFloat_print`. -/
theorem goParseFloat_print_neg (S k : Nat) :
    goParseFloat ⟨'-' :: (formatNat (S / 10 ^ k) ++
        (if k = 0 then [] else '.' :: padDigits k (S % 10 ^ k)))⟩ =
      if ((S : ℚ) / (10 : ℚ) ^ k) < ratFloatMax
      then some (.finite (-((S : ℚ) / (10 : ℚ) ^ k))) else none := by
  obtain ⟨c, rest, hds⟩ : ∃ c rest, formatNat (S / 10 ^ k) = c :: rest := by
    cases h : formatNat (S / 10 ^ k) with
    | nil => exact absurd h (formatNat_ne_nil _)
    | cons c rest => exact ⟨c, rest, rfl⟩
  have hc : isDigit c = true :=
    formatNat_all_digits _ c (by rw [hds]; exact List.mem_cons_self _ _)
  have hpm := parseDecMantissa_body S k
  rw [hds, List.cons_append] at hpm ⊢
  simp only [goParseFloat, splitSign_minus]
  rw [if_neg (not_or.mpr ⟨(lowerList_cons_ne_special c _ hc).1,
    (lowerList_cons_ne_special c _ hc).2.1⟩)]
  rw [if_neg (lowerList_cons_ne_special c _ hc).2.2]
  simp only [hpm]
  simp

/-- The scaled integer printed by `formatFloatF` recovers `|q|` after division
by `10^k`, for any `k` with `q.den ∣ 10^k`. -/
theorem scaledAbs_div {q : ℚ} {k : Nat} (hdvd : q.den ∣ 10 ^ k) :
    ((q.num.natAbs * (10 ^ k / q.den) : Nat) : ℚ) / (10 : ℚ) ^ k = |q| := by
  have hden : ((q.den : ℚ)) ≠ 0 := cast_den_ne_zero q
  have h10 : ((10 : ℚ) ^ k) ≠ 0 := pow_ne_zero _ (by norm_num)
  have hmulN : (10 ^ k / q.den) * q.den = 10 ^ k := Nat.div_mul_cancel hdvd
  have hmulQ : ((10 ^ k / q.den : Nat) : ℚ) * (q.den : ℚ) = (10 : ℚ) ^ k := by
    exact_mod_cast congrArg (fun n : Nat => (n : ℚ)) hmulN
  have habs : |q| = ((q.num.natAbs : Nat) : ℚ) / (q.den : ℚ) := by
    rw [Int.cast_natAbs, Int.cast_abs]
    rw [← abs_of_nonneg (show (0 : ℚ) ≤ (q.den : ℚ) by positivity)]
    rw [← abs_div, Rat.num_div_den]
  rw [habs]
  push_cast
  rw [div_eq_div_iff h10 hden, mul_assoc, hmulQ]

/-- Round trip: `strconv.ParseFloat` inverts `strconv.FormatFloat(·, 'f', -1, 64)`
on every in-range exactly-decimal rational (the model image of `float64`). -/
theorem goParseFloat_formatFloatF {q : ℚ} (hdec : isDecimalRat q) (hlt : |q| < ratFloatMax) :
    goParseFloat (formatFloatF (.finite q)) = some (.finite q) := by
  have hdvd : q.den ∣ 10 ^ max (divCount 2 q.den) (divCount 5 q.den) := hdec
  have hSA := scaledAbs_div hdvd
  simp only [formatFloatF]
  rw [if_pos hdvd]
  by_cases hneg : q.num < 0
  · rw [if_pos hneg, goParseFloat_print_neg, hSA, if_pos hlt]
    have hq0 : q < 0 := by
      by_contra hcon
      exact absurd (Rat.num_nonneg.mpr (le_of_not_lt hcon)) (not_le.mpr hneg)
    rw [abs_of_neg hq0, neg_neg]
  · rw [if_neg hneg, goParseFloat_print, hSA, if_pos hlt]
    have hq0 : (0 : ℚ) ≤ q := Rat.num_nonneg.mp (le_of_not_lt hneg)
    rw [abs_of_nonneg hq0]

/-- C9: re-parsing the engine's own text rendering returns the original value:
for every int64 `n`, `ParseInt(ParseString(n)) = n`, and for every float64 `x`,
`ParseFloat64(ParseString(x)) = x`.  Finite float64 values are exactly the
rationals whose reduced denominator divides a power of ten (dyadic rationals
included) with magnitude below the float64 range bound, which the two
hypotheses of the float conjunct express; NaN and the infinities also round
trip through their keyword renderings. -/
theorem claim_C9 :
    (∀ n : Int, int64Min ≤ n → n ≤ int64Max →
      ParseInt (.str (ParseString (.int64 n))) = n)
  ∧ (∀ q : ℚ, isDecimalRat q → |q| < ratFloatMax →
      ParseFloat64 (.str (ParseString (.float64 (.finite q)))) = .finite q)
  ∧ ParseFloat64 (.str (ParseString (.float64 .nan))) = .nan
  ∧ ParseFloat64 (.str (ParseString (.float64 (.inf false)))) = .inf false
  ∧ ParseFloat64 (.str (ParseString (.float64 (.inf true)))) = .inf true := by
  refine ⟨?_, ?_, by decide, by decide, by decide⟩
  · intro n h1 h2
    show ParseInt (.str (goFormatInt n)) = n
    simp only [ParseInt, goParseInt64_goFormatInt h1 h2]
  · intro q hdec hlt
    show ParseFloat64 (.str (formatFloatF (.finite q))) = .finite q
    simp only [ParseFloat64, goParseFloat_formatFloatF hdec hlt]

theorem claim_C9_witness :
    ParseInt (.str (ParseString (.int64 42))) = 42 ∧
    ParseFloat64 (.str (ParseString (.float64 (.finite (mkRat 5 2))))) = .finite (mkRat 5 2) :=
  ⟨claim_C9.1 42 (by decide) (by decide),
   claim_C9.2.1 (mkRat 5 2) (by decide) (by decide)⟩

end Gosok
